import Mathlib

/-!
Verification of the pdf-tools command-line utility (Python sources under
src/pdfcli).  The development shallowly embeds the program's own logic:
the selection parser of cli/prompts.py, the natural-sort file discovery of
core/files.py, the filename utilities of utils/naming.py, and the three
conversion operations (ops/compress_pdf.py, ops/pdf_to_images.py,
services/ghostscript.py).  Python strings are modelled as lists of
characters: the regex digit class and the digits int() accepts are
modelled by Char.isDigit, the case mapping str.lower by Char.toLower
(both agree with Python on ASCII text), and str.isdigit by pyIsDigitChar,
which also accepts the superscript digits that the regex class and int()
reject — the disagreement behind the ValueError path of
natural_sort_key, modelled by natural_sort_key_checked.  Filesystem and
subprocess effects are modelled by explicit environment records that
state what the outside world returns to each call site.
-/

/-- Python strings are modelled as lists of characters. -/
abbrev PyStr := List Char

/-- Whitespace characters recognised by Python str.split and str.strip:
space, tab, newline, carriage return, vertical tab and form feed. -/
def isPySpace (c : Char) : Bool :=
  c == ' ' || c == '\t' || c == '\n' || c == '\r' || c == Char.ofNat 11 || c == Char.ofNat 12

/-- Helper for the model of str.split with no separator: walks the string,
accumulating the current (reversed) token and emitting it at each
whitespace run; empty tokens are discarded, as Python does. -/
def pySplitWsAux : List Char → List Char → List PyStr
  | [], acc => if acc.isEmpty then [] else [acc.reverse]
  | c :: cs, acc =>
    if isPySpace c then
      if acc.isEmpty then pySplitWsAux cs [] else acc.reverse :: pySplitWsAux cs []
    else
      pySplitWsAux cs (c :: acc)

/-- Model of Python raw.split() with no argument: split on runs of
whitespace, discarding empty tokens. -/
def pySplitWs (s : PyStr) : List PyStr :=
  pySplitWsAux s []

/-- Helper for the model of str.split(sep) with a one-character separator:
keeps empty fields, exactly as Python does. -/
def splitOnCharAux (sep : Char) : List Char → List Char → List PyStr
  | [], acc => [acc.reverse]
  | c :: cs, acc =>
    if c == sep then acc.reverse :: splitOnCharAux sep cs []
    else splitOnCharAux sep cs (c :: acc)

/-- Model of Python part.split(sep) for a one-character separator. -/
def splitOnChar (sep : Char) (s : PyStr) : List PyStr :=
  splitOnCharAux sep s []

/-- Model of str.strip(chars) for a character class: drop matching
characters from both ends. -/
def pyStripChars (p : Char → Bool) (cs : PyStr) : PyStr :=
  (((cs.dropWhile p).reverse.dropWhile p)).reverse

/-- Model of Python str.strip() with no argument (whitespace). -/
def pyStrip (cs : PyStr) : PyStr :=
  pyStripChars isPySpace cs

/-- Numeric value of an ASCII digit character. -/
def digitVal (c : Char) : Nat := c.toNat - 48

/-- Value of a string of ASCII digits, most significant first; this is the
value Python int() computes on such a string. -/
def digitsToNat (cs : PyStr) : Nat :=
  cs.foldl (fun a c => 10 * a + digitVal c) 0

/-- Digit-string core of the model of Python int(): a nonempty run of
digits evaluates to its value, anything else raises ValueError (None). -/
def pyDigitsCore (ds : PyStr) : Option Nat :=
  if ds.isEmpty then none
  else if ds.all Char.isDigit then some (digitsToNat ds) else none

/-- Model of Python int() applied to a token produced by str.split() (so
the token contains no whitespace): an optional single sign followed by a
nonempty digit run.  Underscore digit grouping and non-ASCII digits are
not modelled. -/
def pyIntOfStr : PyStr → Option Int
  | [] => none
  | c :: rest =>
    if c == '+' then (pyDigitsCore rest).map (fun n => (n : Int))
    else if c == '-' then (pyDigitsCore rest).map (fun n => -(n : Int))
    else (pyDigitsCore (c :: rest)).map (fun n => (n : Int))

/-- Fuel-driven helper computing the decimal digits of a positive number,
most significant first, structurally recursive so that it evaluates by
kernel reduction. -/
def natReprAux : Nat → Nat → PyStr → PyStr
  | 0, _, acc => acc
  | _ + 1, 0, acc => acc
  | fuel + 1, n + 1, acc =>
    natReprAux fuel ((n + 1) / 10) (Nat.digitChar ((n + 1) % 10) :: acc)

/-- Model of Python str() on a nonnegative integer: its decimal digits. -/
def natRepr (n : Nat) : PyStr :=
  if n = 0 then ['0'] else natReprAux n n []

/-- Model of Python str() on an integer. -/
def intRepr : Int → PyStr
  | .ofNat n => natRepr n
  | .negSucc n => '-' :: natRepr (n + 1)

deriving instance DecidableEq for Except

/-- Apostrophe character (written by code point). -/
def apos : Char := Char.ofNat 39

/-- Error message of prompts.py for a range token that does not split into
exactly two parts. -/
def msgRangeFormat : PyStr := ("Неверный формат диапазона. Используйте: 1-5").data

/-- Error message of prompts.py for a range token with non-numeric parts. -/
def msgRangeDigits : PyStr := ("Диапазон должен содержать числа: 1-5").data

/-- Error message of prompts.py for a range endpoint out of bounds. -/
def msgRangeBounds (maxNum : Nat) : PyStr :=
  ("Номера должны быть от 1 до ").data ++ natRepr maxNum ++ ('.' :: [])

/-- Error message of prompts.py for a single token that is not a number. -/
def msgNotANumber (part : PyStr) : PyStr :=
  apos :: part ++ apos :: (" — не число.").data

/-- Error message of prompts.py for a single number out of bounds. -/
def msgOutOfRange (num : Int) (maxNum : Nat) : PyStr :=
  ("Номер ").data ++ intRepr num ++ (" вне диапазона (1-").data
    ++ natRepr maxNum ++ (')' :: '.' :: [])

/-- Model of Python range(a, b) with step 1, as the list of produced
values. -/
def pyRangeUp (a b : Int) : List Int :=
  (List.range (b - a).toNat).map (fun i => a + i)

/-- Model of Python range(a, b, -1), as the list of produced values. -/
def pyRangeDown (a b : Int) : List Int :=
  (List.range (a - b).toNat).map (fun i => a - i)

/-- Processing of one whitespace-free token by _parse_number_selection of
cli/prompts.py: a token containing a hyphen is treated as a range and must
split into exactly two int()-parseable parts with both endpoints in
bounds; any other token must be a single in-bounds number. -/
def parseSelToken (maxNum : Nat) (part : PyStr) : Except PyStr (List Int) :=
  if part.any (fun c => c == '-') then
    match splitOnChar '-' part with
    | [a, b] =>
      match pyIntOfStr a, pyIntOfStr b with
      | some s0, some e0 =>
        if s0 < 1 ∨ e0 < 1 ∨ s0 > (maxNum : Int) ∨ e0 > (maxNum : Int) then
          .error (msgRangeBounds maxNum)
        else if s0 > e0 then .ok (pyRangeDown (s0 - 1) (e0 - 2))
        else .ok (pyRangeUp (s0 - 1) e0)
      | _, _ => .error msgRangeDigits
    | _ => .error msgRangeFormat
  else
    match pyIntOfStr part with
    | none => .error (msgNotANumber part)
    | some num =>
      if num < 1 ∨ num > (maxNum : Int) then .error (msgOutOfRange num maxNum)
      else .ok [num - 1]

/-- Token loop of _parse_number_selection: each token is stripped, empty
tokens are skipped, the indices of each token are appended in order, and
the first failing token aborts the whole parse. -/
def parseSelTokens (maxNum : Nat) : List PyStr → Except PyStr (List Int)
  | [] => .ok []
  | t :: ts =>
    let part := pyStrip t
    if part.isEmpty then parseSelTokens maxNum ts
    else
      match parseSelToken maxNum part with
      | .error e => .error e
      | .ok xs =>
        match parseSelTokens maxNum ts with
        | .error e => .error e
        | .ok rest => .ok (xs ++ rest)

/-- Model of _parse_number_selection(raw, max_num) of cli/prompts.py. -/
def parse_number_selection (raw : PyStr) (maxNum : Nat) : Except PyStr (List Int) :=
  parseSelTokens maxNum (pySplitWs raw)

/-- Abstract form of a well-formed selection token, used to state the
claim about all whitespace-separated token strings. -/
inductive SelTok where
  | single (n : Nat)
  | rng (a b : Nat)

deriving DecidableEq

/-- Decimal text of a token: the number itself, or the two endpoints
joined by a hyphen. -/
def selTokStr : SelTok → PyStr
  | .single n => natRepr n
  | .rng a b => natRepr a ++ '-' :: natRepr b

/-- Validity of a token with respect to max_count, as the claim states
it: every mentioned number lies in [1, max_count]. -/
def selTokOk (maxNum : Nat) : SelTok → Prop
  | .single n => 1 ≤ n ∧ n ≤ maxNum
  | .rng a b => (1 ≤ a ∧ a ≤ maxNum) ∧ (1 ≤ b ∧ b ≤ maxNum)

/-- Indices a token denotes according to the claim: n-1 for a single
integer, ascending a-1..b-1 when a ≤ b, descending a-1 down to b-1 when
a > b. -/
def selTokIdx : SelTok → List Int
  | .single n => [(n : Int) - 1]
  | .rng a b =>
    if a ≤ b then (List.range (b - a + 1)).map (fun i => (a : Int) - 1 + i)
    else (List.range (a - b + 1)).map (fun i => (a : Int) - 1 - i)

/-- Joins tokens with single spaces, building the raw input string the
claim quantifies over. -/
def joinWithSpace : List PyStr → PyStr
  | [] => []
  | [t] => t
  | t :: ts => t ++ ' ' :: joinWithSpace ts

instance (maxNum : Nat) (t : SelTok) : Decidable (selTokOk maxNum t) := by
  cases t <;> simp only [selTokOk] <;> infer_instance

/-- Characters replaced by sanitize_filename of utils/naming.py: the
regex class of unsafe filename characters. -/
def isUnsafeChar (c : Char) : Bool :=
  c == '<' || c == '>' || c == ':' || c == '"' || c == '/' || c == '\\' || c == '|'
    || c == '?' || c == '*'

/-- Character class of the final substitution in sanitize_filename:
underscores and whitespace. -/
def isRunChar (c : Char) : Bool :=
  c == '_' || isPySpace c

/-- Model of re.sub matching runs of underscores and whitespace and
replacing each maximal run with a single underscore.  The boolean flag
records whether the previous character belonged to the current run. -/
def collapseAux : List Char → Bool → PyStr
  | [], _ => []
  | c :: cs, inRun =>
    if isRunChar c then
      if inRun then collapseAux cs true else '_' :: collapseAux cs true
    else
      c :: collapseAux cs false

/-- Replacement of every maximal run of underscores and whitespace by one
underscore. -/
def collapseRuns (cs : PyStr) : PyStr :=
  collapseAux cs false

/-- Model of sanitize_filename of utils/naming.py: replace unsafe
characters by underscores, strip whitespace then dots from both ends,
collapse runs of underscores and whitespace to single underscores, and
fall back to "unnamed" when nothing remains. -/
def sanitize_filename (name : PyStr) : PyStr :=
  let safe1 := name.map (fun c => if isUnsafeChar c then '_' else c)
  let safe2 := pyStripChars (fun c => c == '.') (pyStripChars isPySpace safe1)
  let safe3 := collapseRuns safe2
  if safe3.isEmpty then ("unnamed").data else safe3

/-- Model of generate_output_name of utils/naming.py. -/
def generate_output_name (stem suffix extension : PyStr) : PyStr :=
  sanitize_filename stem ++ suffix ++ extension

/-- Model of Python str.zfill(width) on a digit string: pad with leading
zeros up to the width.  The special treatment zfill gives a leading sign
is not exercised here because the input is the decimal form of a
nonnegative number. -/
def pyZfill (cs : PyStr) (width : Nat) : PyStr :=
  if width ≤ cs.length then cs else List.replicate (width - cs.length) '0' ++ cs

/-- Model of format_page_number of utils/naming.py: the decimal page
number zero-filled to the width of the total page count, with a minimum
width of 3. -/
def format_page_number (pageNum totalPages : Nat) : PyStr :=
  pyZfill (natRepr pageNum) (max (natRepr totalPages).length 3)

/-- Model of a pathlib.Path value as far as this program inspects it: the
string form of the whole path and its final component. -/
structure PyPath where
  display : PyStr
  name : PyStr

deriving DecidableEq

/-- Index just past the last dot of a name, following pathlib: the suffix
starts at the last dot provided it is neither the first nor past the last
character. -/
def rfindDot (cs : PyStr) : Option Nat :=
  (cs.reverse.findIdx? (fun c => c == '.')).map (fun j => cs.length - 1 - j)

/-- Model of pathlib suffix of a file name. -/
def pathSuffixName (nm : PyStr) : PyStr :=
  match rfindDot nm with
  | some i => if 0 < i ∧ i < nm.length - 1 then nm.drop i else []
  | none => []

/-- Model of pathlib stem of a file name. -/
def pathStemName (nm : PyStr) : PyStr :=
  match rfindDot nm with
  | some i => if 0 < i ∧ i < nm.length - 1 then nm.take i else nm
  | none => nm

/-- Model of Python str.lower at the ASCII level. -/
def pyLower (cs : PyStr) : PyStr :=
  cs.map Char.toLower

/-- Model of re.split with the captured digit-run pattern: walks the
string and produces the alternating list of (possibly empty) non-digit
gaps and nonempty digit runs, exactly as re.split returns it.  The flag
tells whether the current (reversed) chunk is a digit run. -/
def reSplitAux : List Char → Bool → List Char → List PyStr
  | [], false, acc => [acc.reverse]
  | [], true, acc => [acc.reverse, []]
  | c :: cs, false, acc =>
    if c.isDigit then acc.reverse :: reSplitAux cs true [c]
    else reSplitAux cs false (c :: acc)
  | c :: cs, true, acc =>
    if c.isDigit then reSplitAux cs true (c :: acc)
    else acc.reverse :: reSplitAux cs false [c]

/-- Split of a string into alternating non-digit and digit runs, starting
and ending with a (possibly empty) non-digit gap. -/
def reSplitDigits (cs : PyStr) : List PyStr :=
  reSplitAux cs false []

/-- Restriction of str.isdigit to decimal digits: nonempty and all
decimal; on chunks free of superscript digits it coincides with the full
model pyIsDigitStrU below. -/
def pyIsDigitStr (cs : PyStr) : Bool :=
  !cs.isEmpty && cs.all Char.isDigit

/-- One element of the mixed-type key list natural_sort_key builds: a
string part or an integer part. -/
inductive SortPart where
  | s (v : PyStr)
  | n (v : Nat)

deriving DecidableEq

/-- Model of natural_sort_key of core/files.py on stems where every
int(part) conversion succeeds: lowercase the stem, split on digit runs,
and convert the digit runs to integers.  The checked variant
natural_sort_key_checked below also models the ValueError that int(part)
raises when part.isdigit() holds through a non-decimal digit character. -/
def natural_sort_key (p : PyPath) : List SortPart :=
  (reSplitDigits (pyLower (pathStemName p.name))).map
    (fun part => if pyIsDigitStr part then .n (digitsToNat part) else .s part)

/-- Latin-1 superscript digit characters: accepted by Python str.isdigit
but not matched by the regex digit class and rejected by int(). -/
def isSuperscriptDigit (c : Char) : Bool :=
  c == Char.ofNat 178 || c == Char.ofNat 179 || c == Char.ofNat 185

/-- Model of Python str.isdigit at the character level on the modelled
alphabet: the decimal digits, which the regex class and int() also
accept, and the superscript digits, which they do not. -/
def pyIsDigitChar (c : Char) : Bool :=
  c.isDigit || isSuperscriptDigit c

/-- Model of Python str.isdigit on the modelled alphabet. -/
def pyIsDigitStrU (cs : PyStr) : Bool :=
  !cs.isEmpty && cs.all pyIsDigitChar

/-- Conversion of one chunk of the digit-run split, following the
comprehension int(part) if part.isdigit() else part of natural_sort_key:
a chunk that satisfies str.isdigit but contains a character int()
rejects raises ValueError, modelled as none. -/
def keyPartOfChunk (part : PyStr) : Option SortPart :=
  if pyIsDigitStrU part then
    if part.all Char.isDigit then some (.n (digitsToNat part)) else none
  else some (.s part)

/-- Conversion of all chunks of the split, propagating the ValueError of
the first failing chunk. -/
def keyPartsOfChunks : List PyStr → Option (List SortPart)
  | [] => some []
  | ch :: chs =>
    match keyPartOfChunk ch, keyPartsOfChunks chs with
    | some p, some ps => some (p :: ps)
    | _, _ => none

/-- Faithful model of natural_sort_key of core/files.py including its
failure path: on a stem containing a character that str.isdigit accepts
but int() rejects, the key construction raises ValueError (none); on all
other stems it returns the key computed by natural_sort_key. -/
def natural_sort_key_checked (p : PyPath) : Option (List SortPart) :=
  keyPartsOfChunks (reSplitDigits (pyLower (pathStemName p.name)))

/-- Path of the C10 counterexample: an image file named by the
superscript-two character. -/
def c10CexPath : PyPath :=
  { display := ("input/².png").data, name := ("².png").data }

/-- Three-way comparison of natural numbers. -/
def natCmp (a b : Nat) : Ordering :=
  if a < b then .lt else if b < a then .gt else .eq

/-- Model of Python string comparison: lexicographic by code point. -/
def strCmp : PyStr → PyStr → Ordering
  | [], [] => .eq
  | [], _ :: _ => .lt
  | _ :: _, [] => .gt
  | a :: as, b :: bs =>
    match natCmp a.toNat b.toNat with
    | .eq => strCmp as bs
    | o => o

/-- Model of Python comparison of two key elements: equal types compare
by value; comparing an integer with a string raises TypeError, modelled
as none. -/
def partCmp : SortPart → SortPart → Option Ordering
  | .n a, .n b => some (natCmp a b)
  | .s a, .s b => some (strCmp a b)
  | _, _ => none

/-- Model of Python list comparison on keys: positional, with the shorter
list smaller when one is a strict prefix; a TypeError at any position
propagates as none. -/
def keyCmp : List SortPart → List SortPart → Option Ordering
  | [], [] => some .eq
  | [], _ :: _ => some .lt
  | _ :: _, [] => some .gt
  | a :: as, b :: bs =>
    match partCmp a b with
    | none => none
    | some .eq => keyCmp as bs
    | some o => some o

/-- Total comparison of key elements used to analyse keyCmp: on the
mixed pairs, where Python would raise, it places integers before
strings; generated keys never reach those pairs. -/
def partCmpT : SortPart → SortPart → Ordering
  | .n a, .n b => natCmp a b
  | .s a, .s b => strCmp a b
  | .n _, .s _ => .lt
  | .s _, .n _ => .gt

/-- Total lexicographic comparison of keys built on partCmpT. -/
def keyCmpT : List SortPart → List SortPart → Ordering
  | [], [] => .eq
  | [], _ :: _ => .lt
  | _ :: _, [] => .gt
  | a :: as, b :: bs =>
    match partCmpT a b with
    | .eq => keyCmpT as bs
    | o => o

/-- One entry returned by Path.iterdir, as far as _list_files inspects
it: the path and whether it is a regular file. -/
structure DirEntry where
  path : PyPath
  isFile : Bool

deriving DecidableEq

/-- Model of a directory: whether it exists, and its entries in iterdir
order. -/
structure Directory where
  dirExists : Bool
  entries : List DirEntry

deriving DecidableEq

/-- Comparison used by sorted(files, key=natural_sort_key): an entry
precedes another when its key does not compare greater. -/
def fileLe (f g : DirEntry) : Prop :=
  keyCmp (natural_sort_key f.path) (natural_sort_key g.path) ≠ some .gt

instance : DecidableRel fileLe := fun f g =>
  (inferInstance : Decidable (keyCmp (natural_sort_key f.path) (natural_sort_key g.path)
    ≠ some .gt))

/-- Model of _list_files of core/files.py: empty when the directory does
not exist, otherwise the regular files matching the filter, sorted
stably by natural_sort_key.  Python sorted() is a stable sort; because
the key comparison is a total preorder, every stable sort returns the
same list, so the model uses insertion sort. -/
def list_files (d : Directory) (filt : DirEntry → Bool) : List DirEntry :=
  if d.dirExists then
    List.insertionSort fileLe (d.entries.filter (fun f => f.isFile && filt f))
  else []

/-- Image extensions accepted by core/config.py. -/
def IMAGE_EXTENSIONS : List PyStr :=
  [(".png").data, (".jpg").data, (".jpeg").data, (".webp").data, (".tif").data,
    (".tiff").data]

/-- PDF extension accepted by core/config.py. -/
def PDF_EXTENSION : PyStr := (".pdf").data

/-- Filter of list_images: the lowercased suffix is an accepted image
extension. -/
def isImageFile (f : DirEntry) : Bool :=
  IMAGE_EXTENSIONS.contains (pyLower (pathSuffixName f.path.name))

/-- Model of list_images of core/files.py. -/
def list_images (d : Directory) : List DirEntry :=
  list_files d isImageFile

/-- Model of list_pdfs of core/files.py. -/
def list_pdfs (d : Directory) : List DirEntry :=
  list_files d (fun f => pyLower (pathSuffixName f.path.name) == PDF_EXTENSION)

/-- Ghostscript quality presets of the compression operation. -/
inductive Preset where
  | screen | ebook | printer | prepress

deriving DecidableEq

/-- Text of a preset as it appears in file names and commands. -/
def presetStr : Preset → PyStr
  | .screen => ("screen").data
  | .ebook => ("ebook").data
  | .printer => ("printer").data
  | .prepress => ("prepress").data

/-- Outcome of subprocess.run on the Ghostscript command: exit code and
captured text streams. -/
structure GsRun where
  returncode : Int
  stdout : PyStr
  stderr : PyStr

deriving DecidableEq

/-- Environment of one compression run: what the file system and the
subprocess interface return at each call site of compress_pdf and
run_ghostscript.  The binary field is the result of find_ghostscript;
the launch of the subprocess itself is assumed to succeed (the
FileNotFoundError and SubprocessError handlers of run_ghostscript are
not modelled). -/
structure CompressEnv where
  gsBinary : Option PyStr
  sourceExists : Bool
  sourceSize : Nat
  gsRun : GsRun
  outputExists : Bool
  outputSize : Nat

deriving DecidableEq

/-- Install hint returned by get_ghostscript_install_hint of
services/ghostscript.py. -/
def installHintMsg : PyStr :=
  ("Ghostscript не найден в PATH.\nДля установки:\n  Windows: скачайте с https://ghostscript.com/releases/gsdnld.html\n           и добавьте путь к gswin64c.exe в переменную PATH.\n  Linux:   sudo apt install ghostscript\n  macOS:   brew install ghostscript\n\nПроверка: выполните ").data
    ++ apos :: ("gs --version").data ++ apos :: (" или ").data
    ++ apos :: ("gswin64c --version").data ++ apos :: (" в терминале.").data

/-- Diagnostic text chosen by run_ghostscript on a failing exit: the
stripped stderr if nonempty, else the stripped stdout if nonempty, else
the generic marker. -/
def gsDiagnostic (r : GsRun) : PyStr :=
  if pyStrip r.stderr ≠ [] then pyStrip r.stderr
  else if pyStrip r.stdout ≠ [] then pyStrip r.stdout
  else ("Unknown error").data

/-- Error message of run_ghostscript for a nonzero exit code. -/
def gsExitMsg (code : Int) (diag : PyStr) : PyStr :=
  ("Ghostscript завершился с ошибкой (код ").data ++ intRepr code ++ ("):\n").data ++ diag

/-- Typed failures raised by the operations: core/errors.py distinguishes
the tool-not-found error from generic operation errors. -/
inductive PdfCliError where
  | operationError (msg : PyStr)
  | toolNotFound (msg : PyStr)

deriving DecidableEq

/-- Model of run_ghostscript of services/ghostscript.py: fails with
ToolNotFoundError when find_ghostscript returns nothing, runs the
subprocess otherwise, and turns a nonzero exit code into an operation
error carrying the exit code and the chosen diagnostic text. -/
def run_ghostscript (env : CompressEnv) : Except PdfCliError Unit :=
  match env.gsBinary with
  | none => .error (.toolNotFound installHintMsg)
  | some _ =>
    if env.gsRun.returncode ≠ 0 then
      .error (.operationError (gsExitMsg env.gsRun.returncode (gsDiagnostic env.gsRun)))
    else .ok ()

/-- Recogniser for the tool-not-found constructor, used to state that a
result is not that error. -/
def isToolNotFound {α : Type} : Except PdfCliError α → Bool
  | .error (.toolNotFound _) => true
  | _ => false

/-- Output image formats of the rasterization operation. -/
inductive ImgFormat where
  | png | jpg

deriving DecidableEq

/-- Success messages of the operations.  Messages whose Python f-string
interpolates only strings and integers are carried as exact text; the
two compression outcomes interpolate floating-point sizes, so they are
carried structurally with the sizes and preset that determine the
rendered text. -/
inductive OpMessage where
  | text (msg : PyStr)
  | compressNoImprovement (originalSize newSize : Nat) (preset : Preset)
  | compressSavings (originalSize newSize : Nat) (preset : Preset)

deriving DecidableEq

/-- Path under OUTPUT_DIR, identified by its relative component. -/
structure OutPath where
  component : PyStr

deriving DecidableEq

/-- Model of the OperationResult dataclass of core/models.py. -/
structure OperationResult where
  success : Bool
  message : OpMessage
  output_path : Option OutPath
  files_count : Nat

deriving DecidableEq

/-- Model of the CompressPdfOptions dataclass. -/
structure CompressPdfOptions where
  source_pdf : PyPath
  preset : Preset

deriving DecidableEq

/-- Output file name constructed by compress_pdf. -/
def compressOutputName (opts : CompressPdfOptions) : PyStr :=
  sanitize_filename (pathStemName opts.source_pdf.name) ++ ("_compressed_").data
    ++ presetStr opts.preset ++ (".pdf").data

/-- Missing-source error message shared by compress_pdf and
pdf_to_images. -/
def fileNotFoundMsg (p : PyPath) : PyStr :=
  ("Файл не найден: ").data ++ p.display

/-- Error message of compress_pdf when the tool exited 0 but produced no
output file. -/
def gsNoOutputMsg : PyStr :=
  ("Ghostscript не создал выходной файл.\nВозможно, входной PDF повреждён или защищён.").data

/-- Model of compress_pdf of ops/compress_pdf.py: validate the source,
run Ghostscript, re-verify the output file, and report success with or
without savings depending on the size comparison. -/
def compress_pdf (opts : CompressPdfOptions) (env : CompressEnv) :
    Except PdfCliError OperationResult :=
  if !env.sourceExists then .error (.operationError (fileNotFoundMsg opts.source_pdf))
  else
    match run_ghostscript env with
    | .error e => .error e
    | .ok _ =>
      if !env.outputExists then .error (.operationError gsNoOutputMsg)
      else
        let originalSize := env.sourceSize
        let newSize := env.outputSize
        let msg :=
          if originalSize ≤ newSize then
            OpMessage.compressNoImprovement originalSize newSize opts.preset
          else OpMessage.compressSavings originalSize newSize opts.preset
        .ok { success := true, message := msg,
              output_path := some ⟨compressOutputName opts⟩, files_count := 1 }

/-- Model of the PdfToImagesOptions dataclass. -/
structure PdfToImagesOptions where
  source_pdf : PyPath
  dpi : Nat
  output_format : ImgFormat

deriving DecidableEq

/-- Environment of one rasterization run: whether the source exists and
what fitz.open returns (the page count on success, none when opening
raises FileDataError).  Write failures are exception paths the claims do
not touch and are not modelled. -/
structure RasterEnv where
  sourceExists : Bool
  docPages : Option Nat

deriving DecidableEq

/-- File extension chosen by pdf_to_images for the output format. -/
def imgExt : ImgFormat → PyStr
  | .jpg => (".jpg").data
  | .png => (".png").data

/-- Uppercased format name used in the success message. -/
def imgFmtUpper : ImgFormat → PyStr
  | .jpg => ("JPG").data
  | .png => ("PNG").data

/-- Name of the image file written for one page. -/
def pageFileName (pageNum totalPages : Nat) (fmt : ImgFormat) : PyStr :=
  ("page_").data ++ format_page_number pageNum totalPages ++ imgExt fmt

/-- Text of the zero-page OperationError raised inside the try block of
pdf_to_images; the generic exception handler rewraps it, see
rasterWrapMsg. -/
def emptyPdfMsg (p : PyPath) : PyStr :=
  ("PDF пустой: ").data ++ p.name

/-- Wrapper applied by the generic exception handler of pdf_to_images:
an OperationError raised inside the try block, such as the zero-page
error, is caught there and re-raised with this prefix around its text. -/
def rasterWrapMsg (msg : PyStr) : PyStr :=
  ("Ошибка при извлечении страниц: ").data ++ msg

/-- Error message of pdf_to_images when fitz.open raises FileDataError. -/
def corruptPdfMsg (p : PyPath) : PyStr :=
  ("Не удалось открыть PDF: ").data ++ p.name
    ++ ("\nФайл может быть повреждён или защищён паролем.").data

/-- Success message of pdf_to_images. -/
def rasterDoneMsg (count dpi : Nat) (fmt : ImgFormat) : PyStr :=
  ("Извлечено ").data ++ natRepr count ++ (" страниц в формате ").data
    ++ imgFmtUpper fmt ++ (" (").data ++ natRepr dpi ++ (" DPI).").data

/-- Model of pdf_to_images of ops/pdf_to_images.py: validate the source,
open the document, reject empty documents, then write one image per page
in document order into the output subdirectory named after the sanitized
stem.  The returned pair carries the OperationResult and the list of file
names written into that subdirectory, in write order. -/
def pdf_to_images (opts : PdfToImagesOptions) (env : RasterEnv) :
    Except PdfCliError (OperationResult × List PyStr) :=
  if !env.sourceExists then .error (.operationError (fileNotFoundMsg opts.source_pdf))
  else
    let safeName := sanitize_filename (pathStemName opts.source_pdf.name)
    match env.docPages with
    | none => .error (.operationError (corruptPdfMsg opts.source_pdf))
    | some total =>
      if total = 0 then
        .error (.operationError (rasterWrapMsg (emptyPdfMsg opts.source_pdf)))
      else
        let written := (List.range total).map
          (fun i => pageFileName (i + 1) total opts.output_format)
        .ok ({ success := true,
               message := .text (rasterDoneMsg written.length opts.dpi opts.output_format),
               output_path := some ⟨safeName⟩,
               files_count := written.length }, written)

/-- Output file name constructed by images_to_pdf of
ops/images_to_pdf.py via generate_output_name(name, extension=".pdf"). -/
def imagesOutputName (outputName : PyStr) : PyStr :=
  generate_output_name outputName [] ((".pdf").data)

/-- Options record of the C2 counterexample: a source that does not
exist. -/
def c2CexOpts : CompressPdfOptions :=
  { source_pdf := { display := ("input/missing.pdf").data, name := ("missing.pdf").data },
    preset := .ebook }

/-- Environment of the C2 counterexample: no Ghostscript binary found and
the source file absent. -/
def c2CexEnv : CompressEnv :=
  { gsBinary := none, sourceExists := false, sourceSize := 0,
    gsRun := { returncode := 0, stdout := [], stderr := [] },
    outputExists := false, outputSize := 0 }

/-- Witness environment with a binary absent but the source present. -/
def c2WitEnv : CompressEnv :=
  { gsBinary := none, sourceExists := true, sourceSize := 100,
    gsRun := { returncode := 0, stdout := [], stderr := [] },
    outputExists := false, outputSize := 0 }

/-- Witness environment for a failing Ghostscript run. -/
def c7WitEnv : CompressEnv :=
  { gsBinary := some (("/usr/bin/gs").data), sourceExists := true, sourceSize := 100,
    gsRun := { returncode := 1, stdout := [], stderr := ("boom").data },
    outputExists := false, outputSize := 0 }

/-- Witness environment for a successful compression with savings. -/
def c5WitEnv : CompressEnv :=
  { gsBinary := some (("/usr/bin/gs").data), sourceExists := true, sourceSize := 10,
    gsRun := { returncode := 0, stdout := [], stderr := [] },
    outputExists := true, outputSize := 5 }

/-- Witness options and environment: a five-page document. -/
def c8WitOpts : PdfToImagesOptions :=
  { source_pdf := { display := ("input/doc.pdf").data, name := ("doc.pdf").data },
    dpi := 150, output_format := .png }

/-- Witness raster environment with five pages. -/
def c8WitEnv : RasterEnv := { sourceExists := true, docPages := some 5 }

/-- Discriminator of key elements: true on string parts. -/
def partIsStr : SortPart → Bool
  | .s _ => true
  | .n _ => false

/-- Strict alternation of a key: the flag says whether the next element
must be a string part; even positions string, odd positions integer when
started with true. -/
def altKey : Bool → List SortPart → Bool
  | _, [] => true
  | e, p :: ps => (partIsStr p == e) && altKey (!e) ps

/-- Shape of the chunk list produced by the digit-run split: gaps contain
no digit and digit runs are nonempty all-digit strings, strictly
alternating; the flag says whether a gap is expected next. -/
def chunksShape : Bool → List PyStr → Prop
  | _, [] => True
  | true, c :: cs => (∀ x ∈ c, x.isDigit = false) ∧ chunksShape false cs
  | false, c :: cs => pyIsDigitStr c = true ∧ chunksShape true cs

/-- Directory entry used in the concrete discovery examples. -/
def mkImgEntry (nm : String) : DirEntry :=
  { path := { display := nm.data, name := nm.data }, isFile := true }

/-- Directory of the C3 example, in an iterdir order that differs from
the natural order. -/
def c3ExampleDir : Directory :=
  { dirExists := true,
    entries := [mkImgEntry ("img2.png"), mkImgEntry ("img10.png"), mkImgEntry ("img1.png")] }

theorem natReprAux_eq (fuel : Nat) : ∀ n acc, n ≤ fuel →
    natReprAux fuel n acc = ((Nat.digits 10 n).reverse.map Nat.digitChar) ++ acc := by
  induction fuel with
  | zero =>
    intro n acc hn
    interval_cases n
    simp [natReprAux]
  | succ fuel ih =>
    intro n acc hn
    match n with
    | 0 => simp [natReprAux]
    | m + 1 =>
      rw [natReprAux, ih ((m + 1) / 10) _ ?_, Nat.digits_def' (by norm_num : 1 < 10) (Nat.succ_pos m)]
      · simp
      · have h1 : (m + 1) / 10 < m + 1 := Nat.div_lt_self (Nat.succ_pos m) (by norm_num)
        omega

theorem natRepr_eq_digits {n : Nat} (hn : 0 < n) :
    natRepr n = (Nat.digits 10 n).reverse.map Nat.digitChar := by
  unfold natRepr
  rw [if_neg (by omega)]
  simpa using natReprAux_eq n n [] le_rfl

theorem digitChar_isDigit {d : Nat} (hd : d < 10) : (Nat.digitChar d).isDigit = true := by
  interval_cases d <;> decide

theorem digitVal_digitChar {d : Nat} (hd : d < 10) : digitVal (Nat.digitChar d) = d := by
  interval_cases d <;> decide

theorem natRepr_all_digits (n : Nat) : ∀ c ∈ natRepr n, c.isDigit = true := by
  rcases Nat.eq_zero_or_pos n with h | h
  · subst h; decide
  · rw [natRepr_eq_digits h]
    intro c hc
    simp only [List.mem_map, List.mem_reverse] at hc
    obtain ⟨d, hd, rfl⟩ := hc
    exact digitChar_isDigit (Nat.digits_lt_base (by norm_num) hd)

theorem natRepr_ne_nil (n : Nat) : natRepr n ≠ [] := by
  rcases Nat.eq_zero_or_pos n with h | h
  · subst h; decide
  · rw [natRepr_eq_digits h]
    simp [Nat.digits_ne_nil_iff_ne_zero, Nat.pos_iff_ne_zero.mp h]

theorem foldl_digits_reverse (L : List Nat) : ∀ acc : Nat,
    L.reverse.foldl (fun a d => 10 * a + d) acc = acc * 10 ^ L.length + Nat.ofDigits 10 L := by
  induction L with
  | nil => intro acc; simp
  | cons d T ih =>
    intro acc
    simp only [List.reverse_cons, List.foldl_append, List.foldl_cons, List.foldl_nil, ih,
      Nat.ofDigits_cons, List.length_cons]
    ring

theorem foldl_map_digitChar (L : List Nat) : ∀ acc : Nat, (∀ d ∈ L, d < 10) →
    (L.map Nat.digitChar).foldl (fun a c => 10 * a + digitVal c) acc
      = L.foldl (fun a d => 10 * a + d) acc := by
  induction L with
  | nil => intro acc _; rfl
  | cons d T ih =>
    intro acc h
    simp only [List.map_cons, List.foldl_cons]
    rw [digitVal_digitChar (h d (List.mem_cons_self d T))]
    exact ih _ (fun e he => h e (List.mem_cons_of_mem d he))

theorem digitsToNat_natRepr (n : Nat) : digitsToNat (natRepr n) = n := by
  rcases Nat.eq_zero_or_pos n with h | h
  · subst h; decide
  · rw [natRepr_eq_digits h]
    unfold digitsToNat
    rw [foldl_map_digitChar _ _ (fun d hd =>
      Nat.digits_lt_base (by norm_num) (List.mem_reverse.mp hd))]
    rw [foldl_digits_reverse, Nat.ofDigits_digits]
    simp

theorem isDigit_ne_char {c d : Char} (h : c.isDigit = true) (hd : d.isDigit = false) :
    (c == d) = false := by
  cases hcd : c == d
  · rfl
  · exfalso
    have hcd' : c = d := beq_iff_eq.mp hcd
    subst hcd'
    rw [h] at hd
    cases hd

theorem isDigit_not_pyspace {c : Char} (h : c.isDigit = true) : isPySpace c = false := by
  unfold isPySpace
  rw [isDigit_ne_char h (by decide), isDigit_ne_char h (by decide),
    isDigit_ne_char h (by decide), isDigit_ne_char h (by decide),
    isDigit_ne_char h (by decide), isDigit_ne_char h (by decide)]
  rfl

theorem dropWhile_eq_self_of_all {p : Char → Bool} : ∀ {cs : List Char},
    (∀ c ∈ cs, p c = false) → cs.dropWhile p = cs
  | [], _ => rfl
  | c :: cs, h => by
    rw [List.dropWhile_cons, h c (List.mem_cons_self c cs)]
    simp

theorem pyStrip_eq_self {cs : PyStr} (h : ∀ c ∈ cs, isPySpace c = false) :
    pyStrip cs = cs := by
  unfold pyStrip pyStripChars
  rw [dropWhile_eq_self_of_all h,
    dropWhile_eq_self_of_all (fun c hc => h c (List.mem_reverse.mp hc)), List.reverse_reverse]

theorem pySplitWsAux_chunk : ∀ (t : List Char) (rest acc : List Char),
    (∀ c ∈ t, isPySpace c = false) →
    pySplitWsAux (t ++ rest) acc = pySplitWsAux rest (t.reverse ++ acc)
  | [], rest, acc, _ => by simp
  | c :: t, rest, acc, h => by
    have hc : isPySpace c = false := h c (List.mem_cons_self c t)
    simp only [List.cons_append, pySplitWsAux, hc, Bool.false_eq_true, if_false, List.append_eq]
    rw [pySplitWsAux_chunk t rest (c :: acc) (fun d hd => h d (List.mem_cons_of_mem c hd))]
    simp

theorem pySplitWs_join : ∀ (toks : List PyStr),
    (∀ t ∈ toks, t ≠ [] ∧ ∀ c ∈ t, isPySpace c = false) →
    pySplitWs (joinWithSpace toks) = toks
  | [], _ => rfl
  | [t], h => by
    obtain ⟨hne, hns⟩ := h t (List.mem_cons_self t [])
    unfold pySplitWs joinWithSpace
    rw [show (t : List Char) = t ++ [] from (List.append_nil t).symm] at hns ⊢
    rw [pySplitWsAux_chunk t [] [] (by simpa using hns)]
    simp only [pySplitWsAux, List.append_nil]
    rw [if_neg (by simpa [List.isEmpty_iff] using fun hrev => hne (by simpa using hrev))]
    simp
  | t :: u :: ts, h => by
    obtain ⟨hne, hns⟩ := h t (List.mem_cons_self t (u :: ts))
    have hrest := pySplitWs_join (u :: ts) (fun s hs => h s (List.mem_cons_of_mem t hs))
    unfold pySplitWs
    show pySplitWsAux (joinWithSpace (t :: u :: ts)) [] = t :: u :: ts
    have hjoin : joinWithSpace (t :: u :: ts) = t ++ ' ' :: joinWithSpace (u :: ts) := rfl
    rw [hjoin, pySplitWsAux_chunk t (' ' :: joinWithSpace (u :: ts)) [] hns]
    simp only [pySplitWsAux, isPySpace]
    rw [if_pos (by decide)]
    simp only [List.append_nil]
    rw [if_neg (by simp [List.isEmpty_iff, hne])]
    rw [List.reverse_reverse]
    exact congrArg (t :: ·) hrest

theorem pyDigitsCore_natRepr (n : Nat) : pyDigitsCore (natRepr n) = some n := by
  unfold pyDigitsCore
  rw [if_neg (by simp [List.isEmpty_iff, natRepr_ne_nil n]),
    if_pos (List.all_eq_true.mpr (fun c hc => natRepr_all_digits n c hc)),
    digitsToNat_natRepr]

theorem pyIntOfStr_natRepr (n : Nat) : pyIntOfStr (natRepr n) = some ((n : Nat) : Int) := by
  have hcore := pyDigitsCore_natRepr n
  cases hcs : natRepr n with
  | nil => exact absurd hcs (natRepr_ne_nil n)
  | cons c rest =>
    have hc : c.isDigit = true :=
      natRepr_all_digits n c (by rw [hcs]; exact List.mem_cons_self c rest)
    have hplus : (c == '+') = false :=
      isDigit_ne_char hc (show Char.isDigit '+' = false from by decide)
    have hminus : (c == '-') = false :=
      isDigit_ne_char hc (show Char.isDigit '-' = false from by decide)
    rw [hcs] at hcore
    simp only [pyIntOfStr, hplus, hminus, Bool.false_eq_true, if_false, hcore]
    rfl

theorem natRepr_no_hyphen (n : Nat) : (natRepr n).any (fun c => c == '-') = false := by
  rw [List.any_eq_false]
  intro c hc
  have hne : (c == '-') = false :=
    isDigit_ne_char (natRepr_all_digits n c hc) (show Char.isDigit '-' = false from by decide)
  simp [hne]

theorem splitOnCharAux_no_sep {sep : Char} : ∀ (xs acc : List Char),
    (∀ c ∈ xs, (c == sep) = false) →
    splitOnCharAux sep xs acc = [acc.reverse ++ xs]
  | [], acc, _ => by simp [splitOnCharAux]
  | c :: xs, acc, h => by
    simp only [splitOnCharAux, h c (List.mem_cons_self c xs), Bool.false_eq_true, if_false]
    rw [splitOnCharAux_no_sep xs (c :: acc) (fun d hd => h d (List.mem_cons_of_mem c hd))]
    simp

theorem splitOnCharAux_chunk {sep : Char} : ∀ (xs ys acc : List Char),
    (∀ c ∈ xs, (c == sep) = false) →
    splitOnCharAux sep (xs ++ sep :: ys) acc
      = (acc.reverse ++ xs) :: splitOnCharAux sep ys []
  | [], ys, acc, _ => by simp [splitOnCharAux]
  | c :: xs, ys, acc, h => by
    simp only [List.cons_append, splitOnCharAux, h c (List.mem_cons_self c xs),
      Bool.false_eq_true, if_false, List.append_eq]
    rw [splitOnCharAux_chunk xs ys (c :: acc) (fun d hd => h d (List.mem_cons_of_mem c hd))]
    simp

theorem splitOnChar_hyphen_pair (a b : Nat) :
    splitOnChar '-' (natRepr a ++ '-' :: natRepr b) = [natRepr a, natRepr b] := by
  unfold splitOnChar
  rw [splitOnCharAux_chunk (natRepr a) (natRepr b) []
    (fun c hc => isDigit_ne_char (natRepr_all_digits a c hc)
      (show Char.isDigit '-' = false from by decide))]
  rw [splitOnCharAux_no_sep (natRepr b) []
    (fun c hc => isDigit_ne_char (natRepr_all_digits b c hc)
      (show Char.isDigit '-' = false from by decide))]
  simp

theorem parseSelToken_single {maxNum n : Nat} (h1 : 1 ≤ n) (h2 : n ≤ maxNum) :
    parseSelToken maxNum (natRepr n) = .ok [(n : Int) - 1] := by
  simp only [parseSelToken, natRepr_no_hyphen, Bool.false_eq_true, if_false,
    pyIntOfStr_natRepr]
  rw [if_neg (by omega)]

theorem parseSelToken_rng {maxNum a b : Nat} (ha1 : 1 ≤ a) (ha2 : a ≤ maxNum)
    (hb1 : 1 ≤ b) (hb2 : b ≤ maxNum) :
    parseSelToken maxNum (natRepr a ++ '-' :: natRepr b) = .ok (selTokIdx (.rng a b)) := by
  have hany : ((natRepr a ++ '-' :: natRepr b).any (fun c => c == '-')) = true := by
    simp
  simp only [parseSelToken, hany, if_true, splitOnChar_hyphen_pair, pyIntOfStr_natRepr]
  rw [if_neg (by omega)]
  by_cases hab : a ≤ b
  · rw [if_neg (show ¬ (((a : Nat) : Int) > ((b : Nat) : Int)) from by omega)]
    simp only [selTokIdx, if_pos hab]
    unfold pyRangeUp
    rw [show (((b : Nat) : Int) - (((a : Nat) : Int) - 1)).toNat = b - a + 1 from by omega]
  · rw [if_pos (show (((a : Nat) : Int) > ((b : Nat) : Int)) from by omega)]
    simp only [selTokIdx, if_neg hab]
    unfold pyRangeDown
    rw [show ((((a : Nat) : Int) - 1) - (((b : Nat) : Int) - 2)).toNat = a - b + 1 from by omega]

theorem selTokStr_ne_nil (t : SelTok) : selTokStr t ≠ [] := by
  cases t with
  | single n => exact natRepr_ne_nil n
  | rng a b =>
    simp only [selTokStr]
    intro h
    exact natRepr_ne_nil a (List.append_eq_nil.mp h).1

theorem selTokStr_no_space (t : SelTok) : ∀ c ∈ selTokStr t, isPySpace c = false := by
  cases t with
  | single n => exact fun c hc => isDigit_not_pyspace (natRepr_all_digits n c hc)
  | rng a b =>
    intro c hc
    simp only [selTokStr, List.mem_append, List.mem_cons] at hc
    rcases hc with h | h | h
    · exact isDigit_not_pyspace (natRepr_all_digits a c h)
    · subst h; decide
    · exact isDigit_not_pyspace (natRepr_all_digits b c h)

theorem parseSelToken_good {maxNum : Nat} {t : SelTok} (h : selTokOk maxNum t) :
    parseSelToken maxNum (selTokStr t) = .ok (selTokIdx t) := by
  cases t with
  | single n =>
    obtain ⟨h1, h2⟩ := h
    exact parseSelToken_single h1 h2
  | rng a b =>
    obtain ⟨⟨ha1, ha2⟩, hb1, hb2⟩ := h
    exact parseSelToken_rng ha1 ha2 hb1 hb2

theorem parseSelTokens_good {maxNum : Nat} : ∀ (toks : List SelTok),
    (∀ t ∈ toks, selTokOk maxNum t) →
    parseSelTokens maxNum (toks.map selTokStr) = .ok (toks.flatMap selTokIdx)
  | [], _ => rfl
  | t :: ts, h => by
    have hgood := parseSelToken_good (h t (List.mem_cons_self t ts))
    have hstrip : pyStrip (selTokStr t) = selTokStr t := pyStrip_eq_self (selTokStr_no_space t)
    have hrest := parseSelTokens_good ts (fun s hs => h s (List.mem_cons_of_mem t hs))
    simp only [List.map_cons, parseSelTokens, hstrip]
    rw [if_neg (by simp [List.isEmpty_iff, selTokStr_ne_nil t])]
    rw [hgood, hrest]
    simp

/-- C1: for every max_count at least 1 and every input made of
whitespace-separated valid tokens (single integers in [1, max_count] or
hyphen ranges with both endpoints in [1, max_count]), the selection parser
returns, in token order, the concatenation of: index n-1 for a single
integer n, ascending indices a-1..b-1 for a range with a at most b, and
descending indices a-1 down to b-1 otherwise; and the two concrete
examples of the claim hold. -/
theorem c1_selection_parsing (maxNum : Nat) (hmax : 1 ≤ maxNum) (toks : List SelTok)
    (htoks : ∀ t ∈ toks, selTokOk maxNum t) :
    parse_number_selection (joinWithSpace (toks.map selTokStr)) maxNum
        = .ok (toks.flatMap selTokIdx)
      ∧ parse_number_selection (("1-3 7 9-11").data) 11 = .ok [0, 1, 2, 6, 8, 9, 10]
      ∧ parse_number_selection (("5-3").data) 10 = .ok [4, 3, 2] := by
  refine ⟨?_, by decide, by decide⟩
  unfold parse_number_selection
  rw [pySplitWs_join (toks.map selTokStr) ?_, parseSelTokens_good toks htoks]
  intro s hs
  obtain ⟨t, ht, rfl⟩ := List.mem_map.mp hs
  exact ⟨selTokStr_ne_nil t, selTokStr_no_space t⟩

theorem c1_selection_parsing_witness :
    parse_number_selection
        (joinWithSpace ([SelTok.rng 1 3, SelTok.single 7, SelTok.rng 9 11].map selTokStr)) 11
      = .ok ([SelTok.rng 1 3, SelTok.single 7, SelTok.rng 9 11].flatMap selTokIdx) :=
  (c1_selection_parsing 11 (by decide) [SelTok.rng 1 3, SelTok.single 7, SelTok.rng 9 11]
    (by decide)).1

theorem parseSelToken_not_number {maxNum : Nat} {part : PyStr}
    (hny : part.any (fun c => c == '-') = false) (hint : pyIntOfStr part = none) :
    parseSelToken maxNum part = .error (msgNotANumber part) := by
  simp only [parseSelToken, hny, Bool.false_eq_true, if_false, hint]

theorem parseSelToken_bad_range_shape {maxNum : Nat} {part : PyStr}
    (hy : part.any (fun c => c == '-') = true)
    (hlen : (splitOnChar '-' part).length ≠ 2) :
    parseSelToken maxNum part = .error msgRangeFormat := by
  simp only [parseSelToken, hy, if_true]
  rcases hsp : splitOnChar '-' part with _ | ⟨x, _ | ⟨y, _ | ⟨z, zs⟩⟩⟩
  · rfl
  · rfl
  · rw [hsp] at hlen; simp at hlen
  · rfl

theorem parseSelToken_bad_range_numbers {maxNum : Nat} {part x y : PyStr}
    (hy : part.any (fun c => c == '-') = true)
    (hsp : splitOnChar '-' part = [x, y])
    (hbad : pyIntOfStr x = none ∨ pyIntOfStr y = none) :
    parseSelToken maxNum part = .error msgRangeDigits := by
  simp only [parseSelToken, hy, if_true, hsp]
  rcases hx : pyIntOfStr x with _ | s0 <;> rcases hyy : pyIntOfStr y with _ | e0 <;>
    simp_all

theorem parseSelToken_single_oob {maxNum : Nat} {part : PyStr} {num : Int}
    (hny : part.any (fun c => c == '-') = false)
    (hint : pyIntOfStr part = some num) (hoob : num < 1 ∨ num > (maxNum : Int)) :
    parseSelToken maxNum part = .error (msgOutOfRange num maxNum) := by
  simp only [parseSelToken, hny, Bool.false_eq_true, if_false, hint]
  rw [if_pos hoob]

theorem parseSelToken_range_oob {maxNum : Nat} {part x y : PyStr} {s0 e0 : Int}
    (hy : part.any (fun c => c == '-') = true)
    (hsp : splitOnChar '-' part = [x, y])
    (hx : pyIntOfStr x = some s0) (hyy : pyIntOfStr y = some e0)
    (hoob : s0 < 1 ∨ e0 < 1 ∨ s0 > (maxNum : Int) ∨ e0 > (maxNum : Int)) :
    parseSelToken maxNum part = .error (msgRangeBounds maxNum) := by
  simp only [parseSelToken, hy, if_true, hsp, hx, hyy]
  rw [if_pos hoob]

theorem parseSelTokens_first_error {maxNum : Nat} : ∀ (pre : List PyStr) (t : PyStr)
    (post : List PyStr) (e : PyStr),
    (∀ s ∈ pre, (pyStrip s).isEmpty = true ∨ ∃ v, parseSelToken maxNum (pyStrip s) = .ok v) →
    (pyStrip t).isEmpty = false → parseSelToken maxNum (pyStrip t) = .error e →
    parseSelTokens maxNum (pre ++ t :: post) = .error e
  | [], t, post, e, _, hne, herr => by
    simp only [List.nil_append, parseSelTokens, hne, Bool.false_eq_true, if_false, herr]
  | s :: pre, t, post, e, hpre, hne, herr => by
    have hrest := parseSelTokens_first_error pre t post e
      (fun u hu => hpre u (List.mem_cons_of_mem s hu)) hne herr
    cases hemp : (pyStrip s).isEmpty with
    | true =>
      simp only [List.cons_append, parseSelTokens, hemp, if_true, List.append_eq, hrest]
    | false =>
      rcases hpre s (List.mem_cons_self s pre) with h1 | ⟨v, hok⟩
      · rw [hemp] at h1; cases h1
      · simp only [List.cons_append, parseSelTokens, hemp, Bool.false_eq_true, if_false,
          hok, List.append_eq, hrest]

theorem msgNotANumber_names_token (part : PyStr) : part <:+: msgNotANumber part :=
  ⟨[apos], apos :: (" — не число.").data, by simp [msgNotANumber]⟩

theorem msgOutOfRange_names_range (num : Int) (m : Nat) :
    ('1' :: '-' :: natRepr m) <:+: msgOutOfRange num m := by
  refine ⟨("Номер ").data ++ intRepr num ++ (" вне диапазона (").data, [')', '.'], ?_⟩
  unfold msgOutOfRange
  rw [show (" вне диапазона (1-").data = (" вне диапазона (").data ++ ['1', '-'] from by decide]
  simp

theorem msgRangeBounds_names_range (m : Nat) :
    (("от 1 до ").data ++ natRepr m) <:+: msgRangeBounds m := by
  refine ⟨("Номера должны быть ").data, ['.'], ?_⟩
  unfold msgRangeBounds
  rw [show ("Номера должны быть от 1 до ").data
    = ("Номера должны быть ").data ++ ("от 1 до ").data from by decide]
  simp

/-- C4 (amended): for every max_count, a single token that is not a number
fails with a parse error whose message names the offending token; a
malformed range (not exactly two hyphen-separated parts, or non-numeric
parts) fails with a descriptive fixed error showing the expected format
(which does not repeat the offending token); any out-of-bounds number, as
a single token or a range endpoint, fails with a message stating the valid
range 1..max_count; and in all these cases the parser raises at the first
bad token instead of returning indices. -/
theorem c4_parser_error_reporting (maxNum : Nat) :
    (∀ part : PyStr, part.any (fun c => c == '-') = false → pyIntOfStr part = none →
        parseSelToken maxNum part = .error (msgNotANumber part)
          ∧ part <:+: msgNotANumber part)
    ∧ (∀ part : PyStr, part.any (fun c => c == '-') = true →
        (splitOnChar '-' part).length ≠ 2 →
        parseSelToken maxNum part = .error msgRangeFormat)
    ∧ (∀ part x y : PyStr, part.any (fun c => c == '-') = true →
        splitOnChar '-' part = [x, y] →
        pyIntOfStr x = none ∨ pyIntOfStr y = none →
        parseSelToken maxNum part = .error msgRangeDigits)
    ∧ (∀ (part : PyStr) (num : Int), part.any (fun c => c == '-') = false →
        pyIntOfStr part = some num → num < 1 ∨ num > (maxNum : Int) →
        parseSelToken maxNum part = .error (msgOutOfRange num maxNum)
          ∧ ('1' :: '-' :: natRepr maxNum) <:+: msgOutOfRange num maxNum)
    ∧ (∀ (part x y : PyStr) (s0 e0 : Int), part.any (fun c => c == '-') = true →
        splitOnChar '-' part = [x, y] →
        pyIntOfStr x = some s0 → pyIntOfStr y = some e0 →
        s0 < 1 ∨ e0 < 1 ∨ s0 > (maxNum : Int) ∨ e0 > (maxNum : Int) →
        parseSelToken maxNum part = .error (msgRangeBounds maxNum)
          ∧ (("от 1 до ").data ++ natRepr maxNum) <:+: msgRangeBounds maxNum)
    ∧ (∀ (pre : List PyStr) (t : PyStr) (post : List PyStr) (e : PyStr),
        (∀ s ∈ pre,
          (pyStrip s).isEmpty = true ∨ ∃ v, parseSelToken maxNum (pyStrip s) = .ok v) →
        (pyStrip t).isEmpty = false → parseSelToken maxNum (pyStrip t) = .error e →
        parseSelTokens maxNum (pre ++ t :: post) = .error e) := by
  refine ⟨fun part h1 h2 => ⟨parseSelToken_not_number h1 h2, msgNotANumber_names_token part⟩,
    fun part h1 h2 => parseSelToken_bad_range_shape h1 h2,
    fun part x y h1 h2 h3 => parseSelToken_bad_range_numbers h1 h2 h3,
    fun part num h1 h2 h3 =>
      ⟨parseSelToken_single_oob h1 h2 h3, msgOutOfRange_names_range num maxNum⟩,
    fun part x y s0 e0 h1 h2 h3 h4 h5 =>
      ⟨parseSelToken_range_oob h1 h2 h3 h4 h5, msgRangeBounds_names_range maxNum⟩,
    fun pre t post e h1 h2 h3 => parseSelTokens_first_error pre t post e h1 h2 h3⟩

theorem c4_parser_error_reporting_witness :
    parseSelToken 5 (("abc").data) = .error (msgNotANumber (("abc").data))
      ∧ (("abc").data) <:+: msgNotANumber (("abc").data) :=
  (c4_parser_error_reporting 5).1 (("abc").data) (by decide) (by decide)

theorem c4_counterexample :
    parse_number_selection (("9-9-9").data) 5 = .error msgRangeFormat
      ∧ ¬ ((("9-9-9").data) <:+: msgRangeFormat) := by
  exact ⟨by decide, by decide⟩

/-- C2 counterexample: with no Ghostscript binary found and a missing
source, compress_pdf raises the missing-source operation error, not
ToolNotFoundError, because source validation precedes the tool check. -/
theorem c2_counterexample :
    compress_pdf c2CexOpts c2CexEnv
        = .error (.operationError (fileNotFoundMsg c2CexOpts.source_pdf))
      ∧ isToolNotFound (compress_pdf c2CexOpts c2CexEnv) = false := by
  exact ⟨rfl, rfl⟩

/-- C2 (amended): if the external-tool locator finds no Ghostscript
binary, compress_pdf fails with ToolNotFoundError carrying the install
instructions for every options record whose source exists; when the
source does not exist, the missing-source operation error is raised
instead, because compress_pdf validates the source before calling
run_ghostscript, which performs the tool check. -/
theorem c2_tool_not_found (opts : CompressPdfOptions) (env : CompressEnv)
    (hbin : env.gsBinary = none) :
    (env.sourceExists = true →
      compress_pdf opts env = .error (.toolNotFound installHintMsg))
    ∧ (env.sourceExists = false →
      compress_pdf opts env = .error (.operationError (fileNotFoundMsg opts.source_pdf))) := by
  constructor
  · intro hsrc
    simp only [compress_pdf, hsrc, Bool.not_true, Bool.false_eq_true, if_false,
      run_ghostscript, hbin]
  · intro hsrc
    simp only [compress_pdf, hsrc, Bool.not_false, if_true]

theorem c2_tool_not_found_witness :
    compress_pdf c2CexOpts c2WitEnv = .error (.toolNotFound installHintMsg) :=
  (c2_tool_not_found c2CexOpts c2WitEnv rfl).1 rfl

/-- C7: when the subprocess exits with a nonzero code, run_ghostscript
raises an operation error whose message is the fixed header with the
numeric exit code followed by the diagnostic text, chosen as the stripped
stderr if nonempty, otherwise the stripped stdout if nonempty, otherwise
the marker "Unknown error"; the message contains both the exit code text
and the diagnostic, and compress_pdf propagates this error when the
source exists. -/
theorem c7_ghostscript_exit_error (opts : CompressPdfOptions) (env : CompressEnv)
    (bin : PyStr) (hbin : env.gsBinary = some bin) (hc : env.gsRun.returncode ≠ 0) :
    run_ghostscript env = .error (.operationError
        (gsExitMsg env.gsRun.returncode (gsDiagnostic env.gsRun)))
    ∧ gsDiagnostic env.gsRun
        = (if pyStrip env.gsRun.stderr ≠ [] then pyStrip env.gsRun.stderr
          else if pyStrip env.gsRun.stdout ≠ [] then pyStrip env.gsRun.stdout
          else ("Unknown error").data)
    ∧ intRepr env.gsRun.returncode
        <:+: gsExitMsg env.gsRun.returncode (gsDiagnostic env.gsRun)
    ∧ gsDiagnostic env.gsRun <:+: gsExitMsg env.gsRun.returncode (gsDiagnostic env.gsRun)
    ∧ (env.sourceExists = true →
        compress_pdf opts env = .error (.operationError
          (gsExitMsg env.gsRun.returncode (gsDiagnostic env.gsRun)))) := by
  refine ⟨?_, rfl, ?_, ?_, ?_⟩
  · simp only [run_ghostscript, hbin, if_pos hc]
  · exact ⟨("Ghostscript завершился с ошибкой (код ").data,
      ("):\n").data ++ gsDiagnostic env.gsRun, by simp [gsExitMsg]⟩
  · exact ⟨("Ghostscript завершился с ошибкой (код ").data ++ intRepr env.gsRun.returncode
      ++ ("):\n").data, [], by simp [gsExitMsg]⟩
  · intro hsrc
    simp only [compress_pdf, hsrc, Bool.not_true, Bool.false_eq_true, if_false,
      run_ghostscript, hbin, if_pos hc]

theorem c7_ghostscript_exit_error_witness :
    run_ghostscript c7WitEnv = .error (.operationError
      (gsExitMsg c7WitEnv.gsRun.returncode (gsDiagnostic c7WitEnv.gsRun))) :=
  (c7_ghostscript_exit_error c2CexOpts c7WitEnv (("/usr/bin/gs").data) rfl
    (by decide)).1

/-- C5: for every run in which the tool exits 0 (so the binary was found
and the source existed), compress_pdf raises the distinct no-output
operation error when the declared output file is absent, and otherwise
returns a successful OperationResult in both the smaller-output case
(savings message) and the equal-or-larger case (no-improvement message),
never a failure. -/
theorem c5_compress_success_paths (opts : CompressPdfOptions) (env : CompressEnv)
    (bin : PyStr) (hbin : env.gsBinary = some bin) (hsrc : env.sourceExists = true)
    (hrc : env.gsRun.returncode = 0) :
    (env.outputExists = false →
      compress_pdf opts env = .error (.operationError gsNoOutputMsg))
    ∧ (env.outputExists = true →
      compress_pdf opts env = .ok
        { success := true,
          message :=
            if env.sourceSize ≤ env.outputSize then
              OpMessage.compressNoImprovement env.sourceSize env.outputSize opts.preset
            else OpMessage.compressSavings env.sourceSize env.outputSize opts.preset,
          output_path := some ⟨compressOutputName opts⟩,
          files_count := 1 }) := by
  constructor
  · intro hout
    simp only [compress_pdf, hsrc, Bool.not_true, Bool.false_eq_true, if_false,
      run_ghostscript, hbin, hrc]
    simp [hout]
  · intro hout
    simp only [compress_pdf, hsrc, Bool.not_true, Bool.false_eq_true, if_false,
      run_ghostscript, hbin, hrc]
    simp [hout]

theorem c5_compress_success_paths_witness :
    compress_pdf c2CexOpts c5WitEnv = .ok
      { success := true,
        message := OpMessage.compressSavings 10 5 c2CexOpts.preset,
        output_path := some ⟨compressOutputName c2CexOpts⟩,
        files_count := 1 } := by
  have h := (c5_compress_success_paths c2CexOpts c5WitEnv (("/usr/bin/gs").data)
    rfl rfl rfl).2 rfl
  simpa using h

/-- C8: for every PDF that exists and opens with P at least 1 pages, at
any DPI and format, the rasterization operation succeeds, writing exactly
P files named page_<index>.<ext> in document order with 1-based indices
into the output subdirectory named after the sanitized source stem, and
returns files_count = P with that directory as output path; and
format_page_number(k, P) is the decimal form of k left-padded with zeros
to width max(3, number of digits of P). -/
theorem c8_rasterization (opts : PdfToImagesOptions) (env : RasterEnv) (P : Nat)
    (hsrc : env.sourceExists = true) (hdoc : env.docPages = some P) (hP : 1 ≤ P) :
    pdf_to_images opts env = .ok
      ({ success := true,
         message := .text (rasterDoneMsg P opts.dpi opts.output_format),
         output_path := some ⟨sanitize_filename (pathStemName opts.source_pdf.name)⟩,
         files_count := P },
       (List.range P).map (fun i => pageFileName (i + 1) P opts.output_format))
    ∧ ((List.range P).map (fun i => pageFileName (i + 1) P opts.output_format)).length = P
    ∧ ∀ k : Nat, format_page_number k P
        = List.replicate (max 3 (natRepr P).length - (natRepr k).length) '0'
            ++ natRepr k := by
  refine ⟨?_, by simp, ?_⟩
  · simp only [pdf_to_images, hsrc, Bool.not_true, Bool.false_eq_true, if_false, hdoc]
    rw [if_neg (by omega)]
    simp
  · intro k
    unfold format_page_number pyZfill
    rw [Nat.max_comm ((natRepr P).length) 3]
    rcases le_or_lt (max 3 (natRepr P).length) ((natRepr k).length) with hle | hlt
    · rw [if_pos hle, Nat.sub_eq_zero_of_le hle]
      simp
    · rw [if_neg (by omega)]

theorem c8_rasterization_witness :
    pdf_to_images c8WitOpts c8WitEnv = .ok
      ({ success := true,
         message := .text (rasterDoneMsg 5 c8WitOpts.dpi c8WitOpts.output_format),
         output_path := some ⟨sanitize_filename (pathStemName c8WitOpts.source_pdf.name)⟩,
         files_count := 5 },
       (List.range 5).map (fun i => pageFileName (i + 1) 5 c8WitOpts.output_format)) :=
  (c8_rasterization c8WitOpts c8WitEnv 5 rfl rfl (by decide)).1

theorem pyStripChars_front (p : Char → Bool) (cs : PyStr) :
    pyStripChars p cs <+: cs.dropWhile p := by
  unfold pyStripChars
  have h : ((cs.dropWhile p).reverse.dropWhile p) <:+ (cs.dropWhile p).reverse :=
    List.dropWhile_suffix p
  have h2 := List.reverse_prefix.mpr h
  simpa using h2

theorem mem_pyStripChars {p : Char → Bool} {cs : PyStr} {c : Char}
    (h : c ∈ pyStripChars p cs) : c ∈ cs :=
  List.Sublist.mem (List.Sublist.mem h (pyStripChars_front p cs).sublist)
    (List.dropWhile_suffix p).sublist

theorem head?_dropWhile_false {p : Char → Bool} : ∀ {cs : List Char} {c : Char},
    (cs.dropWhile p).head? = some c → p c = false
  | [], c, h => by simp at h
  | d :: cs, c, h => by
    rw [List.dropWhile_cons] at h
    by_cases hd : p d = true
    · rw [if_pos hd] at h
      exact head?_dropWhile_false h
    · rw [if_neg hd] at h
      simp only [List.head?_cons, Option.some.injEq] at h
      subst h
      exact Bool.eq_false_iff.mpr hd

theorem head?_pyStripChars {p : Char → Bool} {cs : PyStr} {c : Char}
    (h : (pyStripChars p cs).head? = some c) : p c = false := by
  obtain ⟨s, hs⟩ := pyStripChars_front p cs
  cases hres : pyStripChars p cs with
  | nil => rw [hres] at h; cases h
  | cons c0 t =>
    rw [hres] at h hs
    simp only [List.head?_cons, Option.some.injEq] at h
    subst h
    have hhead : (cs.dropWhile p).head? = some c0 := by
      rw [← hs]
      rfl
    exact head?_dropWhile_false hhead

theorem getLast?_pyStripChars {p : Char → Bool} {cs : PyStr} {c : Char}
    (h : (pyStripChars p cs).getLast? = some c) : p c = false := by
  unfold pyStripChars at h
  rw [List.getLast?_reverse] at h
  exact head?_dropWhile_false h

theorem mem_collapseAux : ∀ (cs : List Char) (b : Bool) (c : Char),
    c ∈ collapseAux cs b → c = '_' ∨ (c ∈ cs ∧ isRunChar c = false)
  | [], _, c, h => by simp [collapseAux] at h
  | x :: cs, b, c, h => by
    by_cases hx : isRunChar x = true
    · have hrec : c ∈ collapseAux cs true → c = '_' ∨ (c ∈ cs ∧ isRunChar c = false) :=
        mem_collapseAux cs true c
      cases b with
      | true =>
        rw [show collapseAux (x :: cs) true = collapseAux cs true from by
          simp [collapseAux, hx]] at h
        rcases hrec h with h1 | ⟨h2, h3⟩
        · exact .inl h1
        · exact .inr ⟨List.mem_cons_of_mem x h2, h3⟩
      | false =>
        rw [show collapseAux (x :: cs) false = '_' :: collapseAux cs true from by
          simp [collapseAux, hx]] at h
        rcases List.mem_cons.mp h with h1 | h1
        · exact .inl h1
        · rcases hrec h1 with h2 | ⟨h2, h3⟩
          · exact .inl h2
          · exact .inr ⟨List.mem_cons_of_mem x h2, h3⟩
    · rw [show collapseAux (x :: cs) b = x :: collapseAux cs false from by
        simp [collapseAux, hx]] at h
      rcases List.mem_cons.mp h with h1 | h1
      · subst h1
        exact .inr ⟨List.mem_cons_self c cs, Bool.eq_false_iff.mpr hx⟩
      · rcases mem_collapseAux cs false c h1 with h2 | ⟨h2, h3⟩
        · exact .inl h2
        · exact .inr ⟨List.mem_cons_of_mem x h2, h3⟩

theorem collapseAux_false_eq_nil_iff (cs : List Char) :
    collapseAux cs false = [] ↔ cs = [] := by
  cases cs with
  | nil => simp [collapseAux]
  | cons x cs =>
    by_cases hx : isRunChar x = true
    · simp [collapseAux, hx]
    · simp [collapseAux, hx]

theorem head?_collapseRuns {cs : List Char} {c : Char}
    (h : (collapseRuns cs).head? = some c) : c = '_' ∨ cs.head? = some c := by
  cases cs with
  | nil => simp [collapseRuns, collapseAux] at h
  | cons x cs =>
    unfold collapseRuns at h
    by_cases hx : isRunChar x = true
    · rw [show collapseAux (x :: cs) false = '_' :: collapseAux cs true from by
        simp [collapseAux, hx]] at h
      simp only [List.head?_cons, Option.some.injEq] at h
      exact .inl h.symm
    · rw [show collapseAux (x :: cs) false = x :: collapseAux cs false from by
        simp [collapseAux, hx]] at h
      simp only [List.head?_cons, Option.some.injEq] at h
      subst h
      exact .inr rfl

theorem getLast?_collapseAux : ∀ (cs : List Char) (b : Bool) (c : Char),
    (collapseAux cs b).getLast? = some c → c = '_' ∨ cs.getLast? = some c
  | [], b, c, h => by simp [collapseAux] at h
  | x :: cs, b, c, h => by
    by_cases hx : isRunChar x = true
    · cases b with
      | true =>
        rw [show collapseAux (x :: cs) true = collapseAux cs true from by
          simp [collapseAux, hx]] at h
        rcases getLast?_collapseAux cs true c h with h1 | h2
        · exact .inl h1
        · right
          cases cs with
          | nil => simp at h2
          | cons y ys => rw [List.getLast?_cons_cons]; exact h2
      | false =>
        rw [show collapseAux (x :: cs) false = '_' :: collapseAux cs true from by
          simp [collapseAux, hx]] at h
        cases hcc : collapseAux cs true with
        | nil =>
          rw [hcc] at h
          simp only [List.getLast?_singleton, Option.some.injEq] at h
          exact .inl h.symm
        | cons z zs =>
          rw [hcc, List.getLast?_cons_cons, ← hcc] at h
          rcases getLast?_collapseAux cs true c h with h1 | h2
          · exact .inl h1
          · right
            cases cs with
            | nil => simp [collapseAux] at hcc
            | cons y ys => rw [List.getLast?_cons_cons]; exact h2
    · rw [show collapseAux (x :: cs) b = x :: collapseAux cs false from by
        simp [collapseAux, hx]] at h
      cases hcc : collapseAux cs false with
      | nil =>
        have hcs : cs = [] := (collapseAux_false_eq_nil_iff cs).mp hcc
        subst hcs
        rw [hcc] at h
        simp only [List.getLast?_singleton, Option.some.injEq] at h
        subst h
        exact .inr rfl
      | cons z zs =>
        rw [hcc, List.getLast?_cons_cons, ← hcc] at h
        rcases getLast?_collapseAux cs false c h with h1 | h2
        · exact .inl h1
        · right
          cases cs with
          | nil => simp [collapseAux] at hcc
          | cons y ys => rw [List.getLast?_cons_cons]; exact h2

theorem sanitize_filename_ne_nil (s : PyStr) : sanitize_filename s ≠ [] := by
  simp only [sanitize_filename]
  split_ifs with h
  · decide
  · simpa [List.isEmpty_iff] using h

theorem sanitize_filename_chars (s : PyStr) :
    ∀ c ∈ sanitize_filename s, isUnsafeChar c = false ∧ isPySpace c = false := by
  simp only [sanitize_filename]
  split_ifs with h
  · decide
  · intro c hc
    rcases mem_collapseAux _ false c hc with h1 | ⟨h2, h3⟩
    · subst h1
      exact ⟨by decide, by decide⟩
    · constructor
      · have hm : c ∈ s.map (fun c => if isUnsafeChar c then '_' else c) :=
          mem_pyStripChars (mem_pyStripChars h2)
        obtain ⟨d, hd, hmap⟩ := List.mem_map.mp hm
        by_cases hu : isUnsafeChar d = true
        · rw [if_pos hu] at hmap
          subst hmap
          decide
        · rw [if_neg hu] at hmap
          subst hmap
          exact Bool.eq_false_iff.mpr hu
      · unfold isRunChar at h3
        exact (Bool.or_eq_false_iff.mp h3).2

theorem sanitize_filename_head (s : PyStr) : (sanitize_filename s).head? ≠ some '.' := by
  simp only [sanitize_filename]
  split_ifs with h
  · decide
  · intro hc
    rcases head?_collapseRuns hc with h1 | h1
    · exact absurd h1 (by decide)
    · have h2 := head?_pyStripChars h1
      simp at h2

theorem sanitize_filename_last (s : PyStr) : (sanitize_filename s).getLast? ≠ some '.' := by
  simp only [sanitize_filename]
  split_ifs with h
  · decide
  · intro hc
    rcases getLast?_collapseAux _ false _ hc with h1 | h1
    · exact absurd h1 (by decide)
    · have h2 := getLast?_pyStripChars h1
      simp at h2

theorem isDigit_not_unsafe {c : Char} (h : c.isDigit = true) : isUnsafeChar c = false := by
  unfold isUnsafeChar
  rw [isDigit_ne_char h (show Char.isDigit '<' = false from by decide),
    isDigit_ne_char h (show Char.isDigit '>' = false from by decide),
    isDigit_ne_char h (show Char.isDigit ':' = false from by decide),
    isDigit_ne_char h (show Char.isDigit '"' = false from by decide),
    isDigit_ne_char h (show Char.isDigit '/' = false from by decide),
    isDigit_ne_char h (show Char.isDigit '\\' = false from by decide),
    isDigit_ne_char h (show Char.isDigit '|' = false from by decide),
    isDigit_ne_char h (show Char.isDigit '?' = false from by decide),
    isDigit_ne_char h (show Char.isDigit '*' = false from by decide)]
  rfl

theorem pageFileName_chars (k P : Nat) (fmt : ImgFormat) :
    ∀ c ∈ pageFileName k P fmt, isUnsafeChar c = false := by
  intro c hc
  unfold pageFileName format_page_number pyZfill at hc
  simp only [List.mem_append] at hc
  rcases hc with (hc | hc) | hc
  · exact (by decide : ∀ x ∈ (("page_").data), isUnsafeChar x = false) c hc
  · split_ifs at hc with hw
    · exact isDigit_not_unsafe (natRepr_all_digits k c hc)
    · rcases List.mem_append.mp hc with hrep | hdig
      · rw [List.eq_of_mem_replicate hrep]
        decide
      · exact isDigit_not_unsafe (natRepr_all_digits k c hdig)
  · cases fmt with
    | png => exact (by decide : ∀ x ∈ ((".png").data), isUnsafeChar x = false) c hc
    | jpg => exact (by decide : ∀ x ∈ ((".jpg").data), isUnsafeChar x = false) c hc

/-- C9: sanitize_filename always returns a nonempty name containing no
unsafe character and no whitespace, neither starting nor ending with a
dot, and falls back to "unnamed" when everything is stripped; and every
output file or directory name the three operations construct (the
compression output name, the collation output name, the rasterization
subdirectory and page file names) is nonempty and free of unsafe
characters. -/
theorem c9_sanitized_names (s : PyStr) :
    sanitize_filename s ≠ []
    ∧ (∀ c ∈ sanitize_filename s, isUnsafeChar c = false ∧ isPySpace c = false)
    ∧ (sanitize_filename s).head? ≠ some '.'
    ∧ (sanitize_filename s).getLast? ≠ some '.'
    ∧ sanitize_filename (("...").data) = ("unnamed").data
    ∧ sanitize_filename (("   ").data) = ("unnamed").data
    ∧ (∀ opts : CompressPdfOptions, compressOutputName opts ≠ []
        ∧ ∀ c ∈ compressOutputName opts, isUnsafeChar c = false)
    ∧ (∀ outName : PyStr, imagesOutputName outName ≠ []
        ∧ ∀ c ∈ imagesOutputName outName, isUnsafeChar c = false)
    ∧ (∀ p : PyPath, sanitize_filename (pathStemName p.name) ≠ []
        ∧ ∀ c ∈ sanitize_filename (pathStemName p.name), isUnsafeChar c = false)
    ∧ (∀ (k P : Nat) (fmt : ImgFormat), pageFileName k P fmt ≠ []
        ∧ ∀ c ∈ pageFileName k P fmt, isUnsafeChar c = false) := by
  refine ⟨sanitize_filename_ne_nil s, sanitize_filename_chars s, sanitize_filename_head s,
    sanitize_filename_last s, by decide, by decide, ?_, ?_, ?_, ?_⟩
  · intro opts
    constructor
    · intro h
      rcases List.append_eq_nil.mp h with ⟨h1, -⟩
      rcases List.append_eq_nil.mp h1 with ⟨h2, -⟩
      rcases List.append_eq_nil.mp h2 with ⟨h3, -⟩
      exact sanitize_filename_ne_nil _ h3
    · intro c hc
      unfold compressOutputName at hc
      simp only [List.mem_append] at hc
      rcases hc with ((hc | hc) | hc) | hc
      · exact (sanitize_filename_chars _ c hc).1
      · exact (by decide : ∀ x ∈ (("_compressed_").data), isUnsafeChar x = false) c hc
      · cases hp : opts.preset <;> rw [hp] at hc
        · exact (by decide : ∀ x ∈ (("screen").data), isUnsafeChar x = false) c hc
        · exact (by decide : ∀ x ∈ (("ebook").data), isUnsafeChar x = false) c hc
        · exact (by decide : ∀ x ∈ (("printer").data), isUnsafeChar x = false) c hc
        · exact (by decide : ∀ x ∈ (("prepress").data), isUnsafeChar x = false) c hc
      · exact (by decide : ∀ x ∈ ((".pdf").data), isUnsafeChar x = false) c hc
  · intro outName
    constructor
    · intro h
      rcases List.append_eq_nil.mp h with ⟨h1, -⟩
      rcases List.append_eq_nil.mp h1 with ⟨h2, -⟩
      exact sanitize_filename_ne_nil _ h2
    · intro c hc
      unfold imagesOutputName generate_output_name at hc
      simp only [List.mem_append] at hc
      rcases hc with (hc | hc) | hc
      · exact (sanitize_filename_chars _ c hc).1
      · simp at hc
      · exact (by decide : ∀ x ∈ ((".pdf").data), isUnsafeChar x = false) c hc
  · intro p
    exact ⟨sanitize_filename_ne_nil _, fun c hc => (sanitize_filename_chars _ c hc).1⟩
  · intro k P fmt
    refine ⟨?_, pageFileName_chars k P fmt⟩
    intro h
    rcases List.append_eq_nil.mp h with ⟨h1, -⟩
    rcases List.append_eq_nil.mp h1 with ⟨h2, -⟩
    exact absurd h2 (by decide)

theorem c9_sanitized_names_witness :
    sanitize_filename ((" my:file?.pdf ").data) ≠ []
      ∧ (∀ c ∈ sanitize_filename ((" my:file?.pdf ").data),
          isUnsafeChar c = false ∧ isPySpace c = false) :=
  ⟨(c9_sanitized_names ((" my:file?.pdf ").data)).1,
    (c9_sanitized_names ((" my:file?.pdf ").data)).2.1⟩

theorem natCmp_eq_iff {a b : Nat} : natCmp a b = .eq ↔ a = b := by
  unfold natCmp
  split_ifs with h1 h2
  · constructor
    · intro h; cases h
    · intro h; omega
  · constructor
    · intro h; cases h
    · intro h; omega
  · constructor
    · intro _; omega
    · intro _; rfl

theorem natCmp_lt_iff {a b : Nat} : natCmp a b = .lt ↔ a < b := by
  unfold natCmp
  split_ifs with h1 h2
  · simp [h1]
  · constructor
    · intro h; cases h
    · intro h; omega
  · constructor
    · intro h; cases h
    · intro h; omega

theorem natCmp_swap (a b : Nat) : natCmp a b = (natCmp b a).swap := by
  unfold natCmp
  split_ifs with h1 h2 h3 h4 h5 <;> first | rfl | omega

theorem strCmp_eq_iff : ∀ {a b : PyStr}, strCmp a b = .eq ↔ a = b
  | [], [] => by simp [strCmp]
  | [], b :: bs => by simp [strCmp]
  | a :: as, [] => by simp [strCmp]
  | a :: as, b :: bs => by
    simp only [strCmp]
    cases hab : natCmp a.toNat b.toNat with
    | eq =>
      have hab' : a = b := by
        have h1 := natCmp_eq_iff.mp hab
        rw [← Char.ofNat_toNat a, ← Char.ofNat_toNat b, h1]
      simp only [hab', List.cons.injEq, true_and]
      exact strCmp_eq_iff
    | lt =>
      constructor
      · intro h; cases h
      · intro h
        rw [List.cons.injEq] at h
        rw [h.1] at hab
        rw [natCmp_eq_iff.mpr rfl] at hab
        cases hab
    | gt =>
      constructor
      · intro h; cases h
      · intro h
        rw [List.cons.injEq] at h
        rw [h.1] at hab
        rw [natCmp_eq_iff.mpr rfl] at hab
        cases hab

theorem strCmp_swap : ∀ (a b : PyStr), strCmp a b = (strCmp b a).swap
  | [], [] => rfl
  | [], _ :: _ => rfl
  | _ :: _, [] => rfl
  | a :: as, b :: bs => by
    simp only [strCmp]
    rw [natCmp_swap a.toNat b.toNat]
    cases natCmp b.toNat a.toNat with
    | eq => exact strCmp_swap as bs
    | lt => rfl
    | gt => rfl

theorem strCmp_lt_trans : ∀ {a b c : PyStr},
    strCmp a b = .lt → strCmp b c = .lt → strCmp a c = .lt
  | [], [], _, h1, _ => by cases h1
  | [], _ :: _, [], _, h2 => by cases h2
  | [], _ :: _, _ :: _, _, _ => rfl
  | _ :: _, [], _, h1, _ => by cases h1
  | _ :: _, _ :: _, [], _, h2 => by cases h2
  | a :: as, b :: bs, c :: cs, h1, h2 => by
    simp only [strCmp] at h1 h2 ⊢
    cases hab : natCmp a.toNat b.toNat with
    | gt => rw [hab] at h1; cases h1
    | lt =>
      cases hbc : natCmp b.toNat c.toNat with
      | gt => rw [hbc] at h2; cases h2
      | lt =>
        rw [natCmp_lt_iff.mpr
          (lt_trans (natCmp_lt_iff.mp hab) (natCmp_lt_iff.mp hbc))]
      | eq =>
        have hbc' := natCmp_eq_iff.mp hbc
        rw [show natCmp a.toNat c.toNat = .lt from by rw [← hbc']; exact hab]
    | eq =>
      rw [hab] at h1
      have hab' := natCmp_eq_iff.mp hab
      cases hbc : natCmp b.toNat c.toNat with
      | gt => rw [hbc] at h2; cases h2
      | lt => rw [show natCmp a.toNat c.toNat = .lt from by rw [hab']; exact hbc]
      | eq =>
        rw [hbc] at h2
        rw [show natCmp a.toNat c.toNat = .eq from by
          rw [hab']; exact hbc]
        exact strCmp_lt_trans h1 h2

theorem partCmpT_eq_iff : ∀ {a b : SortPart}, partCmpT a b = .eq ↔ a = b
  | .n a, .n b => by
    simp only [partCmpT, natCmp_eq_iff, SortPart.n.injEq]
  | .s a, .s b => by
    simp only [partCmpT, strCmp_eq_iff, SortPart.s.injEq]
  | .n a, .s b => by
    constructor
    · intro h; cases h
    · intro h; cases h
  | .s a, .n b => by
    constructor
    · intro h; cases h
    · intro h; cases h

theorem partCmpT_swap : ∀ (a b : SortPart), partCmpT a b = (partCmpT b a).swap
  | .n a, .n b => natCmp_swap a b
  | .s a, .s b => strCmp_swap a b
  | .n _, .s _ => rfl
  | .s _, .n _ => rfl

theorem partCmpT_lt_trans : ∀ {a b c : SortPart},
    partCmpT a b = .lt → partCmpT b c = .lt → partCmpT a c = .lt
  | .n a, .n b, .n c, h1, h2 => by
    simp only [partCmpT, natCmp_lt_iff] at h1 h2 ⊢
    omega
  | .n _, .n _, .s _, _, _ => rfl
  | .n _, .s _, .n _, _, h2 => by cases h2
  | .n _, .s _, .s _, _, _ => rfl
  | .s _, .n _, _, h1, _ => by cases h1
  | .s _, .s _, .n _, _, h2 => by cases h2
  | .s a, .s b, .s c, h1, h2 => strCmp_lt_trans h1 h2

theorem keyCmpT_eq_iff : ∀ {a b : List SortPart}, keyCmpT a b = .eq ↔ a = b
  | [], [] => by simp [keyCmpT]
  | [], _ :: _ => by simp [keyCmpT]
  | _ :: _, [] => by simp [keyCmpT]
  | a :: as, b :: bs => by
    simp only [keyCmpT]
    cases hab : partCmpT a b with
    | eq =>
      have hab' : a = b := partCmpT_eq_iff.mp hab
      simp only [hab', List.cons.injEq, true_and]
      exact keyCmpT_eq_iff
    | lt =>
      constructor
      · intro h; cases h
      · intro h
        rw [List.cons.injEq] at h
        rw [h.1, partCmpT_eq_iff.mpr rfl] at hab
        cases hab
    | gt =>
      constructor
      · intro h; cases h
      · intro h
        rw [List.cons.injEq] at h
        rw [h.1, partCmpT_eq_iff.mpr rfl] at hab
        cases hab

theorem keyCmpT_swap : ∀ (a b : List SortPart), keyCmpT a b = (keyCmpT b a).swap
  | [], [] => rfl
  | [], _ :: _ => rfl
  | _ :: _, [] => rfl
  | a :: as, b :: bs => by
    simp only [keyCmpT]
    rw [partCmpT_swap a b]
    cases partCmpT b a with
    | eq => exact keyCmpT_swap as bs
    | lt => rfl
    | gt => rfl

theorem keyCmpT_lt_trans : ∀ {a b c : List SortPart},
    keyCmpT a b = .lt → keyCmpT b c = .lt → keyCmpT a c = .lt
  | [], [], _, h1, _ => by cases h1
  | [], _ :: _, [], _, h2 => by cases h2
  | [], _ :: _, _ :: _, _, _ => rfl
  | _ :: _, [], _, h1, _ => by cases h1
  | _ :: _, _ :: _, [], _, h2 => by cases h2
  | a :: as, b :: bs, c :: cs, h1, h2 => by
    simp only [keyCmpT] at h1 h2 ⊢
    cases hab : partCmpT a b with
    | gt => rw [hab] at h1; cases h1
    | lt =>
      cases hbc : partCmpT b c with
      | gt => rw [hbc] at h2; cases h2
      | lt => rw [partCmpT_lt_trans hab hbc]
      | eq =>
        have hbc' := partCmpT_eq_iff.mp hbc
        rw [show partCmpT a c = .lt from by rw [← hbc']; exact hab]
    | eq =>
      rw [hab] at h1
      have hab' := partCmpT_eq_iff.mp hab
      cases hbc : partCmpT b c with
      | gt => rw [hbc] at h2; cases h2
      | lt => rw [show partCmpT a c = .lt from by rw [hab']; exact hbc]
      | eq =>
        rw [hbc] at h2
        rw [show partCmpT a c = .eq from by rw [hab']; exact hbc]
        exact keyCmpT_lt_trans h1 h2

theorem keyCmpT_ne_gt_trans {a b c : List SortPart}
    (h1 : keyCmpT a b ≠ .gt) (h2 : keyCmpT b c ≠ .gt) : keyCmpT a c ≠ .gt := by
  have hab : keyCmpT a b = .lt ∨ keyCmpT a b = .eq := by
    cases h : keyCmpT a b
    · exact .inl rfl
    · exact .inr rfl
    · exact absurd h h1
  have hbc : keyCmpT b c = .lt ∨ keyCmpT b c = .eq := by
    cases h : keyCmpT b c
    · exact .inl rfl
    · exact .inr rfl
    · exact absurd h h2
  rcases hab with hab | hab <;> rcases hbc with hbc | hbc
  · rw [keyCmpT_lt_trans hab hbc]; intro h; cases h
  · rw [keyCmpT_eq_iff.mp hbc] at hab
    rw [hab]; intro h; cases h
  · rw [keyCmpT_eq_iff.mp hab]
    rw [hbc]; intro h; cases h
  · rw [keyCmpT_eq_iff.mp hab, keyCmpT_eq_iff.mp hbc]
    rw [keyCmpT_eq_iff.mpr rfl]
    intro h; cases h

theorem partCmp_swap : ∀ (a b : SortPart), partCmp a b = (partCmp b a).map Ordering.swap
  | .n a, .n b => by simp [partCmp, natCmp_swap a b]
  | .s a, .s b => by simp [partCmp, strCmp_swap a b]
  | .n _, .s _ => rfl
  | .s _, .n _ => rfl

theorem keyCmp_swap : ∀ (a b : List SortPart), keyCmp a b = (keyCmp b a).map Ordering.swap
  | [], [] => rfl
  | [], _ :: _ => rfl
  | _ :: _, [] => rfl
  | a :: as, b :: bs => by
    simp only [keyCmp]
    rw [partCmp_swap a b]
    cases partCmp b a with
    | none => rfl
    | some o =>
      cases o with
      | eq => exact keyCmp_swap as bs
      | lt => rfl
      | gt => rfl

theorem reSplitAux_shape : ∀ (cs : List Char) (b : Bool) (acc : List Char),
    (b = false → ∀ x ∈ acc, x.isDigit = false) →
    (b = true → acc ≠ [] ∧ ∀ x ∈ acc, x.isDigit = true) →
    chunksShape (!b) (reSplitAux cs b acc)
  | [], false, acc, hg, _ => by
    refine ⟨fun x hx => hg rfl x (List.mem_reverse.mp hx), trivial⟩
  | [], true, acc, _, hd => by
    refine ⟨?_, fun x hx => absurd hx (List.not_mem_nil x), trivial⟩
    unfold pyIsDigitStr
    obtain ⟨hne, hall⟩ := hd rfl
    simp only [Bool.and_eq_true, Bool.not_eq_eq_eq_not, Bool.not_true, List.isEmpty_iff]
    constructor
    · simpa using hne
    · exact List.all_eq_true.mpr (fun x hx => hall x (List.mem_reverse.mp hx))
  | c :: cs, false, acc, hg, hd => by
    by_cases hc : c.isDigit = true
    · rw [show reSplitAux (c :: cs) false acc = acc.reverse :: reSplitAux cs true [c] from by
        simp [reSplitAux, hc]]
      refine ⟨fun x hx => hg rfl x (List.mem_reverse.mp hx), ?_⟩
      have h := reSplitAux_shape cs true [c] (by intro h; cases h)
        (fun _ => ⟨by simp, by simpa using hc⟩)
      simpa using h
    · rw [show reSplitAux (c :: cs) false acc = reSplitAux cs false (c :: acc) from by
        simp [reSplitAux, hc]]
      exact reSplitAux_shape cs false (c :: acc)
        (fun _ => by
          intro x hx
          rcases List.mem_cons.mp hx with h1 | h1
          · subst h1; exact Bool.eq_false_iff.mpr hc
          · exact hg rfl x h1)
        (by intro h; cases h)
  | c :: cs, true, acc, hg, hd => by
    by_cases hc : c.isDigit = true
    · rw [show reSplitAux (c :: cs) true acc = reSplitAux cs true (c :: acc) from by
        simp [reSplitAux, hc]]
      exact reSplitAux_shape cs true (c :: acc) (by intro h; cases h)
        (fun _ => ⟨by simp, by
          intro x hx
          rcases List.mem_cons.mp hx with h1 | h1
          · subst h1; exact hc
          · exact (hd rfl).2 x h1⟩)
    · rw [show reSplitAux (c :: cs) true acc = acc.reverse :: reSplitAux cs false [c] from by
        simp [reSplitAux, hc]]
      refine ⟨?_, ?_⟩
      · unfold pyIsDigitStr
        obtain ⟨hne, hall⟩ := hd rfl
        simp only [Bool.and_eq_true, Bool.not_eq_eq_eq_not, Bool.not_true, List.isEmpty_iff]
        exact ⟨by simpa using hne,
          List.all_eq_true.mpr (fun x hx => hall x (List.mem_reverse.mp hx))⟩
      · have h := reSplitAux_shape cs false [c]
          (fun _ => by
            intro x hx
            rcases List.mem_cons.mp hx with h1 | h1
            · subst h1; exact Bool.eq_false_iff.mpr hc
            · simp at h1)
          (by intro h; cases h)
        simpa using h

theorem chunksShape_reSplitDigits (cs : PyStr) : chunksShape true (reSplitDigits cs) := by
  have h := reSplitAux_shape cs false [] (fun _ => by intro x hx; simp at hx)
    (by intro h; cases h)
  simpa using h

theorem altKey_map_chunks : ∀ (e : Bool) (chunks : List PyStr), chunksShape e chunks →
    altKey e (chunks.map
      (fun part => if pyIsDigitStr part then SortPart.n (digitsToNat part)
        else SortPart.s part)) = true
  | _, [], _ => rfl
  | true, c :: cs, h => by
    obtain ⟨h1, h2⟩ := h
    have hds : pyIsDigitStr c = false := by
      unfold pyIsDigitStr
      cases c with
      | nil => rfl
      | cons x xs =>
        apply Bool.eq_false_iff.mpr
        intro hcontra
        rw [Bool.and_eq_true, List.all_eq_true] at hcontra
        have hx := hcontra.2 x (List.mem_cons_self x xs)
        rw [h1 x (List.mem_cons_self x xs)] at hx
        cases hx
    simp only [List.map_cons, altKey, hds, Bool.false_eq_true, if_false, partIsStr]
    exact altKey_map_chunks false cs h2
  | false, c :: cs, h => by
    obtain ⟨h1, h2⟩ := h
    simp only [List.map_cons, altKey, h1, if_true, partIsStr]
    exact altKey_map_chunks true cs h2

theorem natural_sort_key_alt (p : PyPath) : altKey true (natural_sort_key p) = true := by
  unfold natural_sort_key
  exact altKey_map_chunks true _ (chunksShape_reSplitDigits _)

theorem keyCmp_of_alt : ∀ {e : Bool} {a b : List SortPart},
    altKey e a = true → altKey e b = true → keyCmp a b = some (keyCmpT a b)
  | _, [], [], _, _ => rfl
  | _, [], _ :: _, _, _ => rfl
  | _, _ :: _, [], _, _ => rfl
  | e, a :: as, b :: bs, ha, hb => by
    simp only [altKey, Bool.and_eq_true, beq_iff_eq] at ha hb
    have hpc : partCmp a b = some (partCmpT a b) := by
      cases a with
      | s va =>
        cases b with
        | s vb => rfl
        | n vb =>
          exfalso
          have h1 : (true : Bool) = e := ha.1
          have h2 : (false : Bool) = e := hb.1
          rw [← h2] at h1
          cases h1
      | n va =>
        cases b with
        | s vb =>
          exfalso
          have h1 : (false : Bool) = e := ha.1
          have h2 : (true : Bool) = e := hb.1
          rw [← h2] at h1
          cases h1
        | n vb => rfl
    simp only [keyCmp, keyCmpT, hpc]
    cases partCmpT a b with
    | eq => exact keyCmp_of_alt ha.2 hb.2
    | lt => rfl
    | gt => rfl

theorem keyCmp_keys (p q : PyPath) :
    keyCmp (natural_sort_key p) (natural_sort_key q)
      = some (keyCmpT (natural_sort_key p) (natural_sort_key q)) :=
  keyCmp_of_alt (natural_sort_key_alt p) (natural_sort_key_alt q)

theorem fileLe_total (f g : DirEntry) : fileLe f g ∨ fileLe g f := by
  by_cases h : keyCmp (natural_sort_key g.path) (natural_sort_key f.path)
      = some Ordering.gt
  · left
    unfold fileLe
    rw [keyCmp_swap, h]
    exact (by decide : ((some Ordering.gt).map Ordering.swap ≠ some Ordering.gt))
  · right
    exact h

theorem fileLe_trans (f g h : DirEntry) : fileLe f g → fileLe g h → fileLe f h := by
  unfold fileLe
  rw [keyCmp_keys f.path g.path, keyCmp_keys g.path h.path, keyCmp_keys f.path h.path]
  intro h1 h2 hc
  have h1' : keyCmpT (natural_sort_key f.path) (natural_sort_key g.path) ≠ .gt :=
    fun e => h1 (congrArg some e)
  have h2' : keyCmpT (natural_sort_key g.path) (natural_sort_key h.path) ≠ .gt :=
    fun e => h2 (congrArg some e)
  exact keyCmpT_ne_gt_trans h1' h2' (Option.some.inj hc)

theorem keyCmp_eq_iff_keys (p q : PyPath) :
    keyCmp (natural_sort_key p) (natural_sort_key q) = some .eq
      ↔ natural_sort_key p = natural_sort_key q := by
  rw [keyCmp_keys]
  constructor
  · intro h
    exact keyCmpT_eq_iff.mp (Option.some.inj h)
  · intro h
    rw [keyCmpT_eq_iff.mpr h]

/-- C3: file discovery orders by the natural-sort key: on the example
directory the order is img1, img2, img10; in general the result of
list_images is sorted under the key comparison and is a permutation of
the filtered entries; the key is computed on the case-lowered stem, and
numeric runs compare as integers so file2 precedes file10. -/
theorem c3_natural_sort :
    list_images c3ExampleDir
        = [mkImgEntry ("img1.png"), mkImgEntry ("img2.png"), mkImgEntry ("img10.png")]
    ∧ (∀ d : Directory, List.Sorted fileLe (list_images d))
    ∧ (∀ d : Directory, d.dirExists = true →
        (list_images d).Perm (d.entries.filter (fun f => f.isFile && isImageFile f)))
    ∧ natural_sort_key (mkImgEntry ("IMG2.PNG")).path
        = natural_sort_key (mkImgEntry ("img2.png")).path
    ∧ fileLe (mkImgEntry ("file2.png")) (mkImgEntry ("file10.png"))
    ∧ ¬ fileLe (mkImgEntry ("file10.png")) (mkImgEntry ("file2.png")) := by
  refine ⟨by decide, ?_, ?_, by decide, by decide, by decide⟩
  · intro d
    unfold list_images list_files
    split_ifs with h
    · haveI : IsTotal DirEntry fileLe := ⟨fileLe_total⟩
      haveI : IsTrans DirEntry fileLe := ⟨fileLe_trans⟩
      exact List.sorted_insertionSort fileLe _
    · exact List.sorted_nil
  · intro d h
    unfold list_images list_files
    rw [if_pos h]
    exact List.perm_insertionSort fileLe _

theorem c3_natural_sort_witness :
    (list_images c3ExampleDir).Perm
      (c3ExampleDir.entries.filter (fun f => f.isFile && isImageFile f)) :=
  c3_natural_sort.2.2.1 c3ExampleDir rfl

/-- C6: repeated discovery of an unchanged directory returns the same
list; the entry comparison is total and transitive, swapping arguments
swaps the comparison, and two keys compare equal exactly when they are
the same key, so the natural order is a total order on keys and the
stable sort is deterministic. -/
theorem c6_natural_sort_total_order :
    (∀ d : Directory, list_images d = list_images d ∧ list_pdfs d = list_pdfs d)
    ∧ (∀ f g : DirEntry, fileLe f g ∨ fileLe g f)
    ∧ (∀ f g h : DirEntry, fileLe f g → fileLe g h → fileLe f h)
    ∧ (∀ f g : DirEntry, keyCmp (natural_sort_key f.path) (natural_sort_key g.path)
        = (keyCmp (natural_sort_key g.path) (natural_sort_key f.path)).map Ordering.swap)
    ∧ (∀ f g : DirEntry,
        keyCmp (natural_sort_key f.path) (natural_sort_key g.path) = some .eq
          ↔ natural_sort_key f.path = natural_sort_key g.path) :=
  ⟨fun _ => ⟨rfl, rfl⟩, fileLe_total, fileLe_trans,
    fun _ _ => keyCmp_swap _ _, fun _ _ => keyCmp_eq_iff_keys _ _⟩

theorem c6_natural_sort_total_order_witness :
    fileLe (mkImgEntry ("a1.png")) (mkImgEntry ("a3.png")) :=
  c6_natural_sort_total_order.2.2.1 (mkImgEntry ("a1.png")) (mkImgEntry ("a2.png"))
    (mkImgEntry ("a3.png")) (by decide) (by decide)

theorem altKey_get : ∀ (l : List SortPart) (e : Bool), altKey e l = true →
    ∀ (i : Nat) (h : i < l.length),
      partIsStr (l.get ⟨i, h⟩) = ((i % 2 == 0) == e)
  | [], _, _, i, h => absurd h (Nat.not_lt_zero i)
  | p :: ps, e, halt, 0, h => by
    simp only [altKey, Bool.and_eq_true, beq_iff_eq] at halt
    show partIsStr p = ((0 % 2 == 0) == e)
    rw [halt.1]
    cases e <;> rfl
  | p :: ps, e, halt, i + 1, h => by
    simp only [altKey, Bool.and_eq_true, beq_iff_eq] at halt
    have ih := altKey_get ps (!e) halt.2 i (Nat.lt_of_succ_lt_succ (by simpa using h))
    show partIsStr (ps.get ⟨i, _⟩) = (((i + 1) % 2 == 0) == e)
    rw [ih]
    rcases Nat.mod_two_eq_zero_or_one i with h2 | h2
    · rw [h2, show (i + 1) % 2 = 1 from by omega]
      cases e <;> rfl
    · rw [h2, show (i + 1) % 2 = 0 from by omega]
      cases e <;> rfl

theorem mem_reSplitAux : ∀ (cs : List Char) (b : Bool) (acc : List Char) (ch : PyStr),
    ch ∈ reSplitAux cs b acc → ∀ x ∈ ch, x ∈ cs ∨ x ∈ acc
  | [], false, acc, ch, hch => by
    simp only [reSplitAux, List.mem_singleton] at hch
    subst hch
    intro x hx
    exact .inr (List.mem_reverse.mp hx)
  | [], true, acc, ch, hch => by
    simp only [reSplitAux, List.mem_cons, List.mem_singleton] at hch
    rcases hch with h | h | h
    · subst h
      intro x hx
      exact .inr (List.mem_reverse.mp hx)
    · subst h
      intro x hx
      simp at hx
    · simp at h
  | c :: cs, false, acc, ch, hch => by
    by_cases hc : c.isDigit = true
    · rw [show reSplitAux (c :: cs) false acc = acc.reverse :: reSplitAux cs true [c] from by
        simp [reSplitAux, hc]] at hch
      rcases List.mem_cons.mp hch with h | h
      · subst h
        intro x hx
        exact .inr (List.mem_reverse.mp hx)
      · intro x hx
        rcases mem_reSplitAux cs true [c] ch h x hx with h1 | h1
        · exact .inl (List.mem_cons_of_mem c h1)
        · left
          rw [List.mem_singleton.mp h1]
          exact List.mem_cons_self c cs
    · rw [show reSplitAux (c :: cs) false acc = reSplitAux cs false (c :: acc) from by
        simp [reSplitAux, hc]] at hch
      intro x hx
      rcases mem_reSplitAux cs false (c :: acc) ch hch x hx with h1 | h1
      · exact .inl (List.mem_cons_of_mem c h1)
      · rcases List.mem_cons.mp h1 with h2 | h2
        · subst h2
          exact .inl (List.mem_cons_self x cs)
        · exact .inr h2
  | c :: cs, true, acc, ch, hch => by
    by_cases hc : c.isDigit = true
    · rw [show reSplitAux (c :: cs) true acc = reSplitAux cs true (c :: acc) from by
        simp [reSplitAux, hc]] at hch
      intro x hx
      rcases mem_reSplitAux cs true (c :: acc) ch hch x hx with h1 | h1
      · exact .inl (List.mem_cons_of_mem c h1)
      · rcases List.mem_cons.mp h1 with h2 | h2
        · subst h2
          exact .inl (List.mem_cons_self x cs)
        · exact .inr h2
    · rw [show reSplitAux (c :: cs) true acc = acc.reverse :: reSplitAux cs false [c] from by
        simp [reSplitAux, hc]] at hch
      rcases List.mem_cons.mp hch with h | h
      · subst h
        intro x hx
        exact .inr (List.mem_reverse.mp hx)
      · intro x hx
        rcases mem_reSplitAux cs false [c] ch h x hx with h1 | h1
        · exact .inl (List.mem_cons_of_mem c h1)
        · left
          rw [List.mem_singleton.mp h1]
          exact List.mem_cons_self c cs

theorem keyPartsOfChunks_safe : ∀ (e : Bool) (chunks : List PyStr),
    chunksShape e chunks →
    (∀ ch ∈ chunks, ∀ x ∈ ch, pyIsDigitChar x = true → x.isDigit = true) →
    keyPartsOfChunks chunks
      = some (chunks.map (fun part =>
          if pyIsDigitStr part then SortPart.n (digitsToNat part) else SortPart.s part))
  | _, [], _, _ => rfl
  | true, ch :: chs, hshape, hsafe => by
    obtain ⟨h1, h2⟩ := hshape
    have hU : pyIsDigitStrU ch = false := by
      unfold pyIsDigitStrU
      cases ch with
      | nil => rfl
      | cons x xs =>
        apply Bool.eq_false_iff.mpr
        intro hcontra
        rw [Bool.and_eq_true, List.all_eq_true] at hcontra
        have hx := hcontra.2 x (List.mem_cons_self x xs)
        have hxd := hsafe (x :: xs) (List.mem_cons_self _ _) x (List.mem_cons_self x xs) hx
        rw [h1 x (List.mem_cons_self x xs)] at hxd
        cases hxd
    have hA : pyIsDigitStr ch = false := by
      unfold pyIsDigitStr
      cases ch with
      | nil => rfl
      | cons x xs =>
        apply Bool.eq_false_iff.mpr
        intro hcontra
        rw [Bool.and_eq_true, List.all_eq_true] at hcontra
        have hx := hcontra.2 x (List.mem_cons_self x xs)
        rw [h1 x (List.mem_cons_self x xs)] at hx
        cases hx
    have hrest := keyPartsOfChunks_safe false chs h2
      (fun c hm => hsafe c (List.mem_cons_of_mem _ hm))
    simp only [keyPartsOfChunks, keyPartOfChunk, hU, Bool.false_eq_true, if_false, hrest,
      List.map_cons, hA]
  | false, ch :: chs, hshape, hsafe => by
    obtain ⟨h1, h2⟩ := hshape
    have hpair : (!ch.isEmpty) = true ∧ ch.all Char.isDigit = true := by
      have h1' := h1
      unfold pyIsDigitStr at h1'
      rw [Bool.and_eq_true] at h1'
      exact h1'
    have hAll : ch.all Char.isDigit = true := hpair.2
    have hNe : (!ch.isEmpty) = true := hpair.1
    have hU : pyIsDigitStrU ch = true := by
      unfold pyIsDigitStrU
      rw [hNe, Bool.true_and, List.all_eq_true]
      intro x hx
      unfold pyIsDigitChar
      rw [List.all_eq_true.mp hAll x hx]
      rfl
    have hrest := keyPartsOfChunks_safe true chs h2
      (fun c hm => hsafe c (List.mem_cons_of_mem _ hm))
    simp only [keyPartsOfChunks, keyPartOfChunk, hU, if_true, hAll, hrest, List.map_cons, h1]

theorem natural_sort_key_checked_safe (p : PyPath)
    (hsafe : ∀ c ∈ pyLower (pathStemName p.name),
      pyIsDigitChar c = true → c.isDigit = true) :
    natural_sort_key_checked p = some (natural_sort_key p) := by
  unfold natural_sort_key_checked natural_sort_key
  apply keyPartsOfChunks_safe true _ (chunksShape_reSplitDigits _)
  intro ch hch x hx
  have hmem := mem_reSplitAux _ false [] ch hch x hx
  rcases hmem with h1 | h1
  · exact hsafe x h1
  · simp at h1

/-- C10 counterexample: on the file named by the superscript-two
character, the digit-run split leaves that character in a non-digit
chunk, str.isdigit accepts the chunk, and int() rejects it, so the real
key construction raises ValueError — the checked model returns none —
and sorting a list containing this path is not total. -/
theorem c10_counterexample :
    natural_sort_key_checked c10CexPath = none
      ∧ pyIsDigitStrU (pyLower (pathStemName c10CexPath.name)) = true
      ∧ (pyLower (pathStemName c10CexPath.name)).all Char.isDigit = false :=
  ⟨rfl, rfl, rfl⟩

/-- C10 (amended): every constructed natural-sort key alternates
strictly, string parts at even positions and integer parts at odd
positions, so comparing two constructed keys never reaches a mixed pair
and the comparison of any two paths is total; and on every stem free of
characters that str.isdigit accepts but int() rejects (such as the
superscript digits), the key construction itself succeeds and returns
that key.  On other stems int(part) raises ValueError inside
natural_sort_key, so sorting such a list of paths can raise. -/
theorem c10_key_type_alternation :
    (∀ p : PyPath, altKey true (natural_sort_key p) = true)
    ∧ (∀ (p : PyPath) (i : Nat) (h : i < (natural_sort_key p).length),
        partIsStr ((natural_sort_key p).get ⟨i, h⟩) = (i % 2 == 0))
    ∧ (∀ p q : PyPath,
        (keyCmp (natural_sort_key p) (natural_sort_key q)).isSome = true)
    ∧ (∀ p q : PyPath,
        keyCmp (natural_sort_key p) (natural_sort_key q) ≠ some .gt
          ∨ keyCmp (natural_sort_key q) (natural_sort_key p) ≠ some .gt)
    ∧ (∀ p : PyPath,
        (∀ c ∈ pyLower (pathStemName p.name),
          pyIsDigitChar c = true → c.isDigit = true) →
        natural_sort_key_checked p = some (natural_sort_key p)) := by
  refine ⟨natural_sort_key_alt, ?_, ?_, ?_, natural_sort_key_checked_safe⟩
  · intro p i h
    have hg := altKey_get _ true (natural_sort_key_alt p) i h
    simpa using hg
  · intro p q
    rw [keyCmp_keys]
    rfl
  · intro p q
    by_cases hgt : keyCmp (natural_sort_key q) (natural_sort_key p) = some Ordering.gt
    · left
      rw [keyCmp_swap, hgt]
      exact (by decide : ((some Ordering.gt).map Ordering.swap ≠ some Ordering.gt))
    · right
      exact hgt

theorem c10_key_type_alternation_witness :
    partIsStr ((natural_sort_key (mkImgEntry ("a.png")).path).get ⟨0, by decide⟩)
      = (0 % 2 == 0) :=
  c10_key_type_alternation.2.1 (mkImgEntry ("a.png")).path 0 (by decide)
